import Mathlib

/-!
Verification of the orchestragent execution engine against its
specification.  The definitions below are a shallow embedding of the
Python sources: the JSON-dictionary level of the state store
(src/utils/state_manager.py), the file-scope lock manager
(src/utils/file_lock.py), the retry envelope (src/agents/base.py), the
task scheduler (src/utils/task_scheduler.py), the worker response
handling (src/agents/worker.py) and the startup sequence of the
iteration driver (src/main.py).  Wall-clock readings that the Python
code obtains from datetime.now are threaded through the definitions as
explicit string parameters named now; time.time readings are modelled
as rational numbers of seconds.
-/

namespace Orchestragent

/-! ## JSON values and insertion-ordered dictionaries

Python dictionaries hold unique keys and preserve insertion order:
assigning to an existing key keeps its position, a fresh key is
appended at the end.  JSON documents read from and written to the
per-task files are modelled by the inductive type JVal; an object is an
insertion-ordered association list with unique keys, and the
operations below replicate dictionary assignment, membership, get and
update on that representation. -/

inductive JVal where
  | jnull : JVal
  | jstr : String → JVal
  | jnum : Int → JVal
  | jbool : Bool → JVal
  | jobj : List (String × JVal) → JVal
  | jarr : List JVal → JVal
deriving Repr

abbrev JObj := List (String × JVal)

/-- Membership test for a key of a dictionary (the Python in operator). -/
def dictHas : JObj → String → Bool
  | [], _ => false
  | p :: rest, k => (p.1 == k) || dictHas rest k

/-- Lookup of a key (the Python get method, returning None when absent). -/
def dictGet : JObj → String → Option JVal
  | [], _ => none
  | p :: rest, k => if p.1 == k then some p.2 else dictGet rest k

/-- Assignment to one key: an existing key is updated in place, a fresh
key is appended (Python dictionary assignment semantics). -/
def dictSet : JObj → String → JVal → JObj
  | [], k, v => [(k, v)]
  | p :: rest, k, v => if p.1 == k then (k, v) :: rest else p :: dictSet rest k v

/-- The Python dict.update method: fold assignment over the patch in
patch order. -/
def dictUpdate (o patch : JObj) : JObj :=
  patch.foldl (fun acc p => dictSet acc p.1 p.2) o

/-- String lookup with a default (dict.get of a field expected to hold
a string; absent and non-string values fall back to the default, as the
callers in the source only store strings in these fields). -/
def jStrGetD (o : JObj) (k : String) (d : String) : String :=
  match dictGet o k with
  | some (JVal.jstr s) => s
  | _ => d

theorem dictGet_dictSet (o : JObj) (k k' : String) (v : JVal) :
    dictGet (dictSet o k v) k' = if k' = k then some v else dictGet o k' := by
  induction o with
  | nil =>
    by_cases h : k' = k
    · simp [dictSet, dictGet, h]
    · have h' : ¬ k = k' := fun hc => h hc.symm
      simp [dictSet, dictGet, h, h']
  | cons p rest ih =>
    by_cases hp : p.1 = k
    · by_cases h : k' = k
      · simp [dictSet, dictGet, hp, h]
      · have h' : ¬ k = k' := fun hc => h hc.symm
        have hp' : ¬ p.1 = k' := fun hc => h' (hp ▸ hc)
        simp [dictSet, dictGet, hp, h, h', hp']
    · by_cases h : p.1 = k'
      · have hk : ¬ k' = k := fun hc => hp (by rw [h, hc])
        simp [dictSet, dictGet, hp, h, hk]
      · simp [dictSet, dictGet, hp, h, ih]

theorem dictGet_foldl_of_notmem (patch : JObj) (o : JObj) (k : String)
    (hk : ∀ q ∈ patch, q.1 ≠ k) :
    dictGet (patch.foldl (fun acc p => dictSet acc p.1 p.2) o) k = dictGet o k := by
  induction patch generalizing o with
  | nil => simp
  | cons q rest ih =>
    simp only [List.foldl_cons]
    rw [ih _ (fun r hr => hk r (List.mem_cons_of_mem _ hr)), dictGet_dictSet]
    have : k ≠ q.1 := fun hc => hk q (List.mem_cons_self _ _) hc.symm
    simp [this]

theorem dictGet_dictUpdate_mem (o : JObj) (patch : JObj) (k : String) (v : JVal)
    (hmem : (k, v) ∈ patch) (hnd : (patch.map Prod.fst).Nodup) :
    dictGet (dictUpdate o patch) k = some v := by
  induction patch generalizing o with
  | nil => simp at hmem
  | cons p rest ih =>
    have hnd' : (rest.map Prod.fst).Nodup := by simpa using hnd.of_cons
    rcases List.mem_cons.1 hmem with hh | ht
    · subst hh
      have hnotin : ∀ q ∈ rest, q.1 ≠ k := by
        intro q hq hqk
        have h1 : k ∉ rest.map Prod.fst := by
          have := hnd
          simp only [List.map_cons, List.nodup_cons] at this
          exact this.1
        exact h1 (hqk ▸ List.mem_map_of_mem Prod.fst hq)
      simp only [dictUpdate, List.foldl_cons]
      rw [dictGet_foldl_of_notmem rest _ k hnotin, dictGet_dictSet]
      simp
    · have := ih (dictSet o p.1 p.2) ht hnd'
      simp only [dictUpdate, List.foldl_cons] at this ⊢
      exact this

theorem dictSet_eq_append (o : JObj) (k : String) (v : JVal) (h : ∀ q ∈ o, q.1 ≠ k) :
    dictSet o k v = o ++ [(k, v)] := by
  induction o with
  | nil => simp [dictSet]
  | cons a rest ih =>
    have ha : a.1 ≠ k := h a (List.mem_cons_self _ _)
    simp [dictSet, ha, ih (fun q hq => h q (List.mem_cons_of_mem _ hq))]

theorem foldl_dictSet_append (patch : JObj) : ∀ acc : JObj,
    (patch.map Prod.fst).Nodup →
    (∀ k, k ∈ acc.map Prod.fst → k ∉ patch.map Prod.fst) →
    patch.foldl (fun a p => dictSet a p.1 p.2) acc = acc ++ patch := by
  induction patch with
  | nil => intro acc _ _; simp
  | cons p rest ih =>
    intro acc hnd hdisj
    have hnd' : (rest.map Prod.fst).Nodup := by simpa using hnd.of_cons
    have hpr : p.1 ∉ rest.map Prod.fst := by
      have := hnd
      simp only [List.map_cons, List.nodup_cons] at this
      exact this.1
    have happ : dictSet acc p.1 p.2 = acc ++ [p] := by
      apply dictSet_eq_append
      intro q hq hqp
      have h1 : q.1 ∈ acc.map Prod.fst := List.mem_map_of_mem Prod.fst hq
      have h2 : p.1 ∈ (p :: rest).map Prod.fst :=
        List.mem_map_of_mem Prod.fst (List.mem_cons_self _ _)
      exact hdisj q.1 h1 (by rw [hqp]; exact h2)
    simp only [List.foldl_cons]
    rw [happ, ih (acc ++ [p]) hnd' ?_]
    · simp
    · intro k hk hkr
      rcases List.mem_map.1 hk with ⟨q, hq, hqk⟩
      rcases List.mem_append.1 hq with hql | hqr
      · exact hdisj k (hqk ▸ List.mem_map_of_mem Prod.fst hql) (List.mem_cons_of_mem _ hkr)
      · simp only [List.mem_singleton] at hqr
        subst hqr
        exact hpr (hqk ▸ hkr)

theorem dictUpdate_nil_eq (patch : JObj) (hnd : (patch.map Prod.fst).Nodup) :
    dictUpdate [] patch = patch := by
  simpa [dictUpdate] using foldl_dictSet_append patch [] hnd (by simp)

/-! ## State-store model: per-task files and result blobs -/

/-- One header entry of tasks.json (models.TaskIndex.to_dict). -/
structure IndexEntry where
  id : String
  title : String
  priority : String
  createdAt : String
deriving Repr, DecidableEq

/-- The live state-store contents the task-level operations touch: the
index entries of tasks.json, the per-task files tasks/id.json and the
text blobs results/name.md. -/
structure TaskStore where
  index : List IndexEntry
  files : List (String × JObj)
  results : List (String × String)
deriving Repr

def assocGet {α : Type} : List (String × α) → String → Option α
  | [], _ => none
  | p :: rest, k => if p.1 == k then some p.2 else assocGet rest k

def assocSet {α : Type} : List (String × α) → String → α → List (String × α)
  | [], k, v => [(k, v)]
  | p :: rest, k, v => if p.1 == k then (k, v) :: rest else p :: assocSet rest k v

theorem assocGet_assocSet {α : Type} (l : List (String × α)) (k k' : String) (v : α) :
    assocGet (assocSet l k v) k' = if k' = k then some v else assocGet l k' := by
  induction l with
  | nil =>
    by_cases h : k' = k
    · simp [assocSet, assocGet, h]
    · have h' : ¬ k = k' := fun hc => h hc.symm
      simp [assocSet, assocGet, h, h']
  | cons p rest ih =>
    by_cases hp : p.1 = k
    · by_cases h : k' = k
      · simp [assocSet, assocGet, hp, h]
      · have h' : ¬ k = k' := fun hc => h hc.symm
        have hp' : ¬ p.1 = k' := fun hc => h' (hp ▸ hc)
        simp [assocSet, assocGet, hp, h, h', hp']
    · by_cases h : p.1 = k'
      · have hk : ¬ k' = k := fun hc => hp (by rw [h, hc])
        simp [assocSet, assocGet, hp, h, hk]
      · simp [assocSet, assocGet, hp, h, ih]

/-- StateManager._load_task_state: the per-task file contents, or the
empty dictionary when the file is absent (or unreadable). -/
def loadTaskState (st : TaskStore) (taskId : String) : JObj :=
  (assocGet st.files taskId).getD []

/-- StateManager.update_task: load the per-task state, merge the patch
with dict.update, stamp updated_at whenever the patch carries a status
key, and save the result back to the per-task file only. -/
def updateTask (now : String) (taskId : String) (updates : JObj) (st : TaskStore) : TaskStore :=
  let cur := loadTaskState st taskId
  let merged := dictUpdate cur updates
  let merged :=
    if dictHas updates "status" then dictSet merged "updated_at" (JVal.jstr now)
    else merged
  { st with files := assocSet st.files taskId merged }

/-- StateManager.assign_task. -/
def assignTask (now : String) (taskId : String) (workerId : String) (st : TaskStore) : TaskStore :=
  updateTask now taskId
    [("status", JVal.jstr "in_progress"),
     ("assigned_to", JVal.jstr workerId),
     ("started_at", JVal.jstr now)] st

/-- StateManager.complete_task: write results/taskId.md from the report
field of the result dictionary, then update the per-task file. -/
def completeTask (now : String) (taskId : String) (result : JObj) (st : TaskStore) : TaskStore :=
  let resultFile := "results/" ++ taskId ++ ".md"
  let st' := { st with results := assocSet st.results resultFile (jStrGetD result "report" "") }
  updateTask now taskId
    [("status", JVal.jstr "completed"),
     ("completed_at", JVal.jstr now),
     ("result_file", JVal.jstr resultFile),
     ("result", JVal.jobj result)] st'

/-- StateManager.fail_task. -/
def failTask (now : String) (taskId : String) (error : String) (st : TaskStore) : TaskStore :=
  updateTask now taskId
    [("status", JVal.jstr "failed"),
     ("failed_at", JVal.jstr now),
     ("error", JVal.jstr error)] st

/-- The status a task record carries as read back through
Task.from_dict: the status field of the per-task file, pending when the
file or the field is absent. -/
def taskStatusAt (st : TaskStore) (taskId : String) : String :=
  match assocGet st.files taskId with
  | some o => jStrGetD o "status" "pending"
  | none => "pending"

/-- StateManager.recover_in_progress_tasks: snapshot all tasks through
the index, then reset every in_progress one to pending with
recovered_at and recovery_reason stamped. -/
def recoverInProgressTasks (now : String) (st : TaskStore) : TaskStore :=
  (st.index.filter (fun e => taskStatusAt st e.id == "in_progress")).foldl
    (fun acc e =>
      updateTask now e.id
        [("status", JVal.jstr "pending"),
         ("recovered_at", JVal.jstr now),
         ("recovery_reason", JVal.jstr "System restart - task was in_progress")] acc)
    st

theorem loadTaskState_updateTask_self (now taskId : String) (updates : JObj) (st : TaskStore) :
    assocGet (updateTask now taskId updates st).files taskId =
      some (if dictHas updates "status" then
              dictSet (dictUpdate (loadTaskState st taskId) updates) "updated_at" (JVal.jstr now)
            else dictUpdate (loadTaskState st taskId) updates) := by
  unfold updateTask
  by_cases h : dictHas updates "status" <;>
    simp [h, assocGet_assocSet]

theorem updateTask_other (now taskId tid : String) (updates : JObj) (st : TaskStore)
    (h : tid ≠ taskId) :
    assocGet (updateTask now taskId updates st).files tid = assocGet st.files tid := by
  unfold updateTask
  by_cases hs : dictHas updates "status" <;>
    simp [hs, assocGet_assocSet, h]

theorem taskStatusAt_updateTask_status (now taskId s : String) (updates : JObj) (st : TaskStore)
    (hlast : dictGet (dictUpdate (loadTaskState st taskId) updates) "status" = some (JVal.jstr s))
    (hhas : dictHas updates "status" = true) :
    taskStatusAt (updateTask now taskId updates st) taskId = s := by
  unfold taskStatusAt
  rw [loadTaskState_updateTask_self]
  simp only [hhas, if_true]
  unfold jStrGetD
  rw [dictGet_dictSet]
  simp only [if_neg (by decide : ¬ ("status" = "updated_at"))]
  rw [hlast]

/-! ### Claim C2

The specification asserts that a stored task status only ever moves
along pending to in_progress, in_progress to completed or failed, and
in_progress back to pending for recovery, so that completed and failed
are terminal.  The store enforces no such thing: update_task merges any
patch without reading the prior status, and assign_task, complete_task
and fail_task call it unconditionally. -/

def c2Store : TaskStore :=
  { index := [⟨"task_001", "t", "medium", "T0"⟩],
    files := [("task_001", [("id", JVal.jstr "task_001"), ("status", JVal.jstr "pending")])],
    results := [] }

/-- Claim C2, counterexample: starting from a pending task, the
operation sequence assign_task, complete_task, assign_task ends with
status in_progress, so a task whose stored status was completed changes
status again, contradicting the claimed transition closure. -/
theorem C2_counterexample :
    taskStatusAt (completeTask "T2" "task_001" [("report", JVal.jstr "r")]
      (assignTask "T1" "task_001" "w" c2Store)) "task_001" = "completed" ∧
    taskStatusAt (assignTask "T3" "task_001" "w"
      (completeTask "T2" "task_001" [("report", JVal.jstr "r")]
        (assignTask "T1" "task_001" "w" c2Store))) "task_001" = "in_progress" := by
  constructor <;> rfl

/-- Claim C2 as amended: the dedicated operations set a fixed status
unconditionally, without validating the prior status: assign_task
always yields in_progress, complete_task always yields completed,
fail_task always yields failed, and recover_in_progress_tasks resets
exactly the indexed tasks whose snapshot status is in_progress to
pending, leaving every other status unchanged.  In particular a
completed or failed task is not protected: a later assign_task moves it
back to in_progress. -/
theorem C2_store_status_transitions :
    (∀ (now taskId workerId : String) (st : TaskStore),
      taskStatusAt (assignTask now taskId workerId st) taskId = "in_progress") ∧
    (∀ (now taskId : String) (result : JObj) (st : TaskStore),
      taskStatusAt (completeTask now taskId result st) taskId = "completed") ∧
    (∀ (now taskId error : String) (st : TaskStore),
      taskStatusAt (failTask now taskId error st) taskId = "failed") ∧
    (∀ (now : String) (st : TaskStore) (tid : String),
      taskStatusAt (recoverInProgressTasks now st) tid =
        if (st.index.any (fun e => e.id == tid)) ∧ taskStatusAt st tid = "in_progress"
        then "pending" else taskStatusAt st tid) := by
  refine ⟨?_, ?_, ?_, ?_⟩
  · intro now taskId workerId st
    apply taskStatusAt_updateTask_status
    · apply dictGet_dictUpdate_mem
      · simp
      · simp
    · rfl
  · intro now taskId result st
    apply taskStatusAt_updateTask_status
    · apply dictGet_dictUpdate_mem
      · simp
      · simp
    · rfl
  · intro now taskId error st
    apply taskStatusAt_updateTask_status
    · apply dictGet_dictUpdate_mem
      · simp
      · simp
    · rfl
  · intro now st tid
    unfold recoverInProgressTasks
    have key : ∀ (l : List IndexEntry) (acc : TaskStore),
        (taskStatusAt acc tid = taskStatusAt st tid ∨ taskStatusAt acc tid = "pending") →
        (taskStatusAt
          (l.foldl (fun a e => updateTask now e.id
            [("status", JVal.jstr "pending"),
             ("recovered_at", JVal.jstr now),
             ("recovery_reason", JVal.jstr "System restart - task was in_progress")] a) acc) tid =
          if l.any (fun e => e.id == tid) then "pending" else taskStatusAt acc tid) := by
      intro l
      induction l with
      | nil => intro acc _; simp
      | cons e rest ih =>
        intro acc hacc
        simp only [List.foldl_cons, List.any_cons]
        by_cases he : e.id = tid
        · subst he
          have hstat : taskStatusAt (updateTask now e.id
              [("status", JVal.jstr "pending"),
               ("recovered_at", JVal.jstr now),
               ("recovery_reason", JVal.jstr "System restart - task was in_progress")] acc) e.id
              = "pending" := by
            apply taskStatusAt_updateTask_status
            · apply dictGet_dictUpdate_mem
              · simp
              · simp
            · rfl
          rw [ih _ (Or.inr hstat)]
          by_cases hr : rest.any (fun e2 => e2.id == e.id) <;> simp [hr, hstat]
        · have hother : taskStatusAt (updateTask now e.id
              [("status", JVal.jstr "pending"),
               ("recovered_at", JVal.jstr now),
               ("recovery_reason", JVal.jstr "System restart - task was in_progress")] acc) tid
              = taskStatusAt acc tid := by
            unfold taskStatusAt
            rw [updateTask_other _ _ _ _ _ (fun hc => he hc.symm)]
          rw [ih _ (by rw [hother]; exact hacc)]
          have hne : ¬ (e.id == tid) := by simpa using he
          simp [hne, hother]
    rw [key (st.index.filter (fun e => taskStatusAt st e.id == "in_progress")) st (Or.inl rfl)]
    by_cases hin : st.index.any (fun e => e.id == tid)
    · have hfilter : (st.index.filter (fun e => taskStatusAt st e.id == "in_progress")).any
          (fun e => e.id == tid) = true ↔ taskStatusAt st tid = "in_progress" := by
        constructor
        · intro h
          rcases List.any_eq_true.1 h with ⟨e, he, heq⟩
          rcases List.mem_filter.1 he with ⟨_, hst⟩
          have : e.id = tid := by simpa using heq
          subst this
          simpa using hst
        · intro h
          rcases List.any_eq_true.1 hin with ⟨e, he, heq⟩
          have heid : e.id = tid := by simpa using heq
          refine List.any_eq_true.2 ⟨e, List.mem_filter.2 ⟨he, ?_⟩, heq⟩
          rw [heid]
          simpa using h
      by_cases hip : taskStatusAt st tid = "in_progress"
      · rw [if_pos (hfilter.2 hip), if_pos ⟨hin, hip⟩]
      · rw [if_neg (fun hc => hip (hfilter.1 hc)), if_neg (fun hc => hip hc.2)]
    · have hfilter : (st.index.filter (fun e => taskStatusAt st e.id == "in_progress")).any
          (fun e => e.id == tid) = false := by
        rw [List.any_eq_false]
        intro e he
        rcases List.mem_filter.1 he with ⟨hemem, _⟩
        intro hc
        exact hin (List.any_eq_true.2 ⟨e, hemem, hc⟩)
      rw [hfilter]
      simp only [Bool.false_eq_true, if_false]
      rw [if_neg (fun hc => hin hc.1)]

/-! ### Claim C10

update_task never checks that the task exists: a missing per-task file
is loaded as the empty dictionary, so the written file holds exactly
the patch (plus updated_at when the patch carries a status key), and
fail_task and complete_task on an unknown id silently create a partial
task record. -/

/-- Claim C10: update_task applied to an id with no per-task file
creates tasks/id.json holding exactly the patch fields, with
updated_at appended exactly when the patch carries a status key; hence
fail_task on an unknown id creates the partial record consisting of
status, failed_at, error and updated_at, and complete_task on an
unknown id creates the corresponding completed record as well as the
results blob; moreover updated_at is stamped whenever a status key is
present in the patch, even when the patched status equals the stored
one. -/
theorem C10_update_task_creates_record :
    (∀ (now taskId : String) (patch : JObj) (st : TaskStore),
      assocGet st.files taskId = none →
      (patch.map Prod.fst).Nodup →
      dictHas patch "updated_at" = false →
      assocGet (updateTask now taskId patch st).files taskId =
        some (if dictHas patch "status" then patch ++ [("updated_at", JVal.jstr now)] else patch)) ∧
    (∀ (now taskId error : String) (st : TaskStore),
      assocGet st.files taskId = none →
      assocGet (failTask now taskId error st).files taskId =
        some [("status", JVal.jstr "failed"), ("failed_at", JVal.jstr now),
              ("error", JVal.jstr error), ("updated_at", JVal.jstr now)]) ∧
    (∀ (now taskId : String) (result : JObj) (st : TaskStore),
      assocGet st.files taskId = none →
      assocGet (completeTask now taskId result st).files taskId =
        some [("status", JVal.jstr "completed"), ("completed_at", JVal.jstr now),
              ("result_file", JVal.jstr ("results/" ++ taskId ++ ".md")),
              ("result", JVal.jobj result), ("updated_at", JVal.jstr now)] ∧
      assocGet (completeTask now taskId result st).results ("results/" ++ taskId ++ ".md") =
        some (jStrGetD result "report" "")) ∧
    (∀ (now taskId : String) (patch : JObj) (st : TaskStore),
      dictHas patch "status" = true →
      dictGet ((assocGet (updateTask now taskId patch st).files taskId).getD [])
        "updated_at" = some (JVal.jstr now)) := by
  have hset : ∀ (patch : JObj) (now : String), dictHas patch "updated_at" = false →
      dictSet patch "updated_at" (JVal.jstr now) = patch ++ [("updated_at", JVal.jstr now)] := by
    intro patch now hnua
    induction patch with
    | nil => simp [dictSet]
    | cons p rest ih =>
      simp only [dictHas, Bool.or_eq_false_iff] at hnua
      simp [dictSet, hnua.1, ih hnua.2]
  have hmain : ∀ (now taskId : String) (patch : JObj) (st : TaskStore),
      assocGet st.files taskId = none →
      (patch.map Prod.fst).Nodup →
      dictHas patch "updated_at" = false →
      assocGet (updateTask now taskId patch st).files taskId =
        some (if dictHas patch "status" then patch ++ [("updated_at", JVal.jstr now)] else patch) := by
    intro now taskId patch st hmiss hnd hnua
    rw [loadTaskState_updateTask_self]
    have hload : loadTaskState st taskId = [] := by
      unfold loadTaskState
      rw [hmiss]
      rfl
    rw [hload, dictUpdate_nil_eq patch hnd]
    by_cases hs : dictHas patch "status"
    · simp only [hs, if_true]
      rw [hset patch now hnua]
    · simp [hs]
  refine ⟨hmain, ?_, ?_, ?_⟩
  · intro now taskId error st hmiss
    have := hmain now taskId
      [("status", JVal.jstr "failed"), ("failed_at", JVal.jstr now), ("error", JVal.jstr error)]
      st hmiss (by simp) (by rfl)
    simpa [failTask] using this
  · intro now taskId result st hmiss
    refine ⟨?_, ?_⟩
    · have := hmain now taskId
        [("status", JVal.jstr "completed"), ("completed_at", JVal.jstr now),
         ("result_file", JVal.jstr ("results/" ++ taskId ++ ".md")),
         ("result", JVal.jobj result)]
        { index := st.index, files := st.files,
          results := assocSet st.results ("results/" ++ taskId ++ ".md")
            (jStrGetD result "report" "") }
        (by simpa using hmiss) (by simp) (by rfl)
      simpa [completeTask] using this
    · have hres : (completeTask now taskId result st).results =
          assocSet st.results ("results/" ++ taskId ++ ".md") (jStrGetD result "report" "") := by
        simp [completeTask, updateTask]
      rw [hres, assocGet_assocSet]
      simp
  · intro now taskId patch st hs
    rw [loadTaskState_updateTask_self]
    simp only [hs, if_true, Option.getD_some]
    rw [dictGet_dictSet]
    simp

/-- Claim C10, witness: evaluating fail_task on an id absent from a
concrete store creates exactly the partial failed record. -/
theorem C10_update_task_creates_record_witness :
    assocGet (failTask "T9" "task_042" "boom"
        { index := [], files := [], results := [] }).files "task_042" =
      some [("status", JVal.jstr "failed"), ("failed_at", JVal.jstr "T9"),
            ("error", JVal.jstr "boom"), ("updated_at", JVal.jstr "T9")] :=
  C10_update_task_creates_record.2.1 "T9" "task_042" "boom"
    { index := [], files := [], results := [] } (by rfl)

/-! ## Write traces of the JSON savers

StateManager.save_json opens the target file in write mode (which
truncates it), streams the serialized document into it and closes it;
StateManager._save_task_state additionally flushes and fsyncs before
closing.  Neither writes a temporary file nor renames.  A trace of
file-system operations makes the intermediate states observable; the
serialized form of the document is abstracted as a string, and the
streamed dump is recorded as one write of the full serialization (the
truncation at open time already exposes a partial state). -/

inductive WriteOp where
  | openTrunc : String → WriteOp
  | writeAll : String → String → WriteOp
  | flushFile : String → WriteOp
  | fsyncFile : String → WriteOp
  | closeFile : String → WriteOp
  | renameFile : String → String → WriteOp
deriving Repr, DecidableEq

def assocRemove {α : Type} : List (String × α) → String → List (String × α)
  | [], _ => []
  | p :: rest, k => if p.1 == k then rest else p :: assocRemove rest k

/-- Effect of one operation on the file system (a map from path to
content). -/
def applyWriteOp (fs : List (String × String)) : WriteOp → List (String × String)
  | WriteOp.openTrunc p => assocSet fs p ""
  | WriteOp.writeAll p c => assocSet fs p (((assocGet fs p).getD "") ++ c)
  | WriteOp.flushFile _ => fs
  | WriteOp.fsyncFile _ => fs
  | WriteOp.closeFile _ => fs
  | WriteOp.renameFile src dst =>
      match assocGet fs src with
      | some c => assocRemove (assocSet fs dst c) src
      | none => fs

/-- Content of a path after running a trace from an initial file
system. -/
def contentAfter (fs : List (String × String)) (ops : List WriteOp) (target : String) :
    Option String :=
  assocGet (ops.foldl applyWriteOp fs) target

/-- StateManager.save_json: open the target for writing (truncating
it), dump the serialized document, close.  No temporary file, no flush,
no fsync, no rename. -/
def saveJsonOps (filename serialized : String) : List WriteOp :=
  [WriteOp.openTrunc filename, WriteOp.writeAll filename serialized,
   WriteOp.closeFile filename]

/-- StateManager._save_task_state: open the per-task file for writing
(truncating it), dump, flush, fsync, close.  Still in place: no
temporary file and no rename. -/
def saveTaskStateOps (path serialized : String) : List WriteOp :=
  [WriteOp.openTrunc path, WriteOp.writeAll path serialized,
   WriteOp.flushFile path, WriteOp.fsyncFile path, WriteOp.closeFile path]

/-- Modelled from the spec: write_json replaces the target atomically
by writing a temporary file in the same directory, flushing and
fsyncing it, and renaming it over the target.  A trace realizes that
pattern exactly when it never opens or writes the target directly and
the target is only produced by a rename. -/
def isAtomicReplacement (ops : List WriteOp) (target : String) : Bool :=
  ops.all (fun op =>
    match op with
    | WriteOp.openTrunc p => !(p == target)
    | WriteOp.writeAll p _ => !(p == target)
    | _ => true)
  && ops.any (fun op =>
    match op with
    | WriteOp.renameFile _ dst => dst == target
    | _ => false)

/-- Claim C3, counterexample: the save_json trace for tasks.json is not
an atomic replacement, and after its first operation the target is
observable holding the empty string, which is neither the old nor the
new document: a partially written state. -/
theorem C3_counterexample :
    isAtomicReplacement (saveJsonOps "tasks.json" "NEWDOC") "tasks.json" = false ∧
    contentAfter [("tasks.json", "OLDDOC")]
      ((saveJsonOps "tasks.json" "NEWDOC").take 1) "tasks.json" = some "" ∧
    contentAfter [("tasks.json", "OLDDOC")]
      (saveJsonOps "tasks.json" "NEWDOC") "tasks.json" = some "NEWDOC" := by
  refine ⟨rfl, rfl, rfl⟩

/-- Claim C3 as amended: save_json (the write_json of the
specification) writes the serialized document directly into the target
file in place: it truncates the target and streams the new content into
it, with no temporary file, no fsync and no rename, so after the
truncating open the target is observable holding an empty (partial)
document; the task-file saver _save_task_state behaves the same way,
merely adding flush and fsync before close.  The final state does hold
the full document. -/
theorem C3_save_json_not_atomic (filename serialized : String)
    (fs : List (String × String)) :
    isAtomicReplacement (saveJsonOps filename serialized) filename = false ∧
    contentAfter fs ((saveJsonOps filename serialized).take 1) filename = some "" ∧
    contentAfter fs (saveJsonOps filename serialized) filename = some serialized ∧
    isAtomicReplacement (saveTaskStateOps filename serialized) filename = false ∧
    contentAfter fs ((saveTaskStateOps filename serialized).take 1) filename = some "" ∧
    contentAfter fs (saveTaskStateOps filename serialized) filename = some serialized := by
  refine ⟨?_, ?_, ?_, ?_, ?_, ?_⟩
  · simp [isAtomicReplacement, saveJsonOps]
  · simp [contentAfter, saveJsonOps, applyWriteOp, assocGet_assocSet]
  · simp [contentAfter, saveJsonOps, applyWriteOp, assocGet_assocSet]
  · simp [isAtomicReplacement, saveTaskStateOps]
  · simp [contentAfter, saveTaskStateOps, applyWriteOp, assocGet_assocSet]
  · simp [contentAfter, saveTaskStateOps, applyWriteOp, assocGet_assocSet]

/-! ## Checkpoints (create_checkpoint and restore_checkpoint)

The live state directory is modelled at the byte level: the three
top-level files plan.md, tasks.json and status.json may each be absent,
while the tasks and results directories always exist (the StateManager
constructor creates them).  create_checkpoint copies each top-level
file that exists and copies both directories wholesale, then writes
metadata.json.  restore_checkpoint copies back each top-level file that
exists in the checkpoint, leaving the live file alone otherwise, and
replaces both directories wholesale (after taking a pre-restore backup,
which touches only the backup root and is not modelled). -/

structure LiveState where
  plan : Option String
  tasksJson : Option String
  statusJson : Option String
  tasksDir : List (String × String)
  resultsDir : List (String × String)
deriving Repr, DecidableEq

structure Checkpoint where
  plan : Option String
  tasksJson : Option String
  statusJson : Option String
  tasksDir : List (String × String)
  resultsDir : List (String × String)
deriving Repr, DecidableEq

/-- StateManager.create_checkpoint: copy the top-level files that
exist and both directories into the checkpoint directory. -/
def createCheckpoint (s : LiveState) : Checkpoint :=
  { plan := s.plan, tasksJson := s.tasksJson, statusJson := s.statusJson,
    tasksDir := s.tasksDir, resultsDir := s.resultsDir }

/-- StateManager.restore_checkpoint: copy back each top-level file the
checkpoint holds (a file absent from the checkpoint leaves the live
file untouched), and replace the tasks and results directories
wholesale. -/
def restoreCheckpoint (cp : Checkpoint) (s : LiveState) : LiveState :=
  { plan := match cp.plan with | some p => some p | none => s.plan,
    tasksJson := match cp.tasksJson with | some t => some t | none => s.tasksJson,
    statusJson := match cp.statusJson with | some t => some t | none => s.statusJson,
    tasksDir := cp.tasksDir,
    resultsDir := cp.resultsDir }

def c7Initial : LiveState :=
  { plan := none, tasksJson := some "T0", statusJson := some "S0",
    tasksDir := [("task_001.json", "A")], resultsDir := [] }

def c7Mutated : LiveState :=
  { plan := some "NEWPLAN", tasksJson := some "T1", statusJson := some "S1",
    tasksDir := [("task_001.json", "B")], resultsDir := [("task_001.md", "R")] }

/-- Claim C7, counterexample: when plan.md did not exist at checkpoint
time and is created afterwards, restore_checkpoint leaves the live
plan.md in place, so the restored state is not byte-identical to the
checkpoint-time state (which had no plan.md at all). -/
theorem C7_counterexample :
    (restoreCheckpoint (createCheckpoint c7Initial) c7Mutated).plan = some "NEWPLAN" ∧
    (restoreCheckpoint (createCheckpoint c7Initial) c7Mutated).plan ≠ c7Initial.plan := by
  refine ⟨rfl, by decide⟩

/-- Claim C7 as amended: after create_checkpoint and arbitrary
mutation, restore_checkpoint makes the per-task directory and the
results directory byte-identical to their checkpoint-time contents, and
likewise each of plan.md, tasks.json and status.json that existed at
checkpoint time; but a top-level file that was absent at checkpoint
time is left at its current live content instead of being removed. -/
theorem C7_checkpoint_restore_roundtrip (s s' : LiveState) :
    (restoreCheckpoint (createCheckpoint s) s').tasksDir = s.tasksDir ∧
    (restoreCheckpoint (createCheckpoint s) s').resultsDir = s.resultsDir ∧
    (restoreCheckpoint (createCheckpoint s) s').plan =
      (match s.plan with | some p => some p | none => s'.plan) ∧
    (restoreCheckpoint (createCheckpoint s) s').tasksJson =
      (match s.tasksJson with | some t => some t | none => s'.tasksJson) ∧
    (restoreCheckpoint (createCheckpoint s) s').statusJson =
      (match s.statusJson with | some t => some t | none => s'.statusJson) := by
  refine ⟨rfl, rfl, rfl, rfl, rfl⟩

/-! ## Driver startup (run_main_loop)

run_main_loop initializes the components, validates the state (trying
recover_from_corruption when validation fails), creates the initial
checkpoint, and enters iteration 1 by patching the status.  The
operations executed before the first iteration are listed below in
program order; none of them is recover_in_progress_tasks. -/

inductive DriverOp where
  | validateState : DriverOp
  | recoverFromCorruption : DriverOp
  | createCheckpointOp : String → DriverOp
  | updateStatusIteration : Nat → DriverOp
  | recoverInProgressOp : DriverOp
deriving Repr, DecidableEq

/-- The state-store operations run_main_loop performs from startup to
the beginning of iteration 1, by validation outcome (main.py lines
250-342). -/
def runMainLoopStartupOps (valid : Bool) : List DriverOp :=
  if valid then
    [DriverOp.validateState, DriverOp.createCheckpointOp "initial",
     DriverOp.updateStatusIteration 1]
  else
    [DriverOp.validateState, DriverOp.recoverFromCorruption, DriverOp.validateState,
     DriverOp.createCheckpointOp "initial", DriverOp.updateStatusIteration 1]

/-- Effect of a startup operation on the per-task files.
validate_state only reads, create_checkpoint copies the live files out
without changing them, and the iteration patch touches status.json
only; recover_from_corruption (reached only when validation fails)
restores a checkpoint and is modelled as leaving the task files of a
valid store alone. -/
def applyDriverOp (now : String) (st : TaskStore) : DriverOp → TaskStore
  | DriverOp.validateState => st
  | DriverOp.recoverFromCorruption => st
  | DriverOp.createCheckpointOp _ => st
  | DriverOp.updateStatusIteration _ => st
  | DriverOp.recoverInProgressOp => recoverInProgressTasks now st

def c4Store : TaskStore :=
  { index := [⟨"task_001", "t", "medium", "T0"⟩],
    files := [("task_001", [("id", JVal.jstr "task_001"),
                            ("status", JVal.jstr "in_progress")])],
    results := [] }

/-- Claim C4: the startup sequence of run_main_loop never invokes
recover_in_progress_tasks (on either validation outcome), so a task
that was in_progress on disk is still in_progress, with no recovered_at
stamp, when iteration 1 begins - whereas recover_in_progress_tasks,
had it been called as the claim states, would have reset the task to
pending with recovered_at set. -/
theorem C4_startup_skips_recovery :
    DriverOp.recoverInProgressOp ∉ runMainLoopStartupOps true ∧
    DriverOp.recoverInProgressOp ∉ runMainLoopStartupOps false ∧
    taskStatusAt ((runMainLoopStartupOps true).foldl (applyDriverOp "T1") c4Store)
      "task_001" = "in_progress" ∧
    dictGet (loadTaskState ((runMainLoopStartupOps true).foldl (applyDriverOp "T1") c4Store)
      "task_001") "recovered_at" = none ∧
    taskStatusAt (recoverInProgressTasks "T1" c4Store) "task_001" = "pending" ∧
    dictGet (loadTaskState (recoverInProgressTasks "T1" c4Store) "task_001")
      "recovered_at" = some (JVal.jstr "T1") := by
  refine ⟨by decide, by decide, rfl, rfl, rfl, rfl⟩

/-! ## Retry envelope (BaseAgent.run)

BaseAgent.run iterates attempt = 0 .. max_retries - 1.  An attempt may
succeed, raise an LLMError (retryable or not), raise another
AgentError, or raise an unexpected exception.  A retryable LLMError
with attempt < max_retries - 1 sleeps 2 ^ attempt seconds and retries;
every other failure propagates at once (an unexpected exception is
wrapped into a non-retryable agent error).  When the loop bound is
zero the body never runs and the function falls through, returning no
result and no error (None in Python), which the trace records as a
missing result. -/

inductive AttemptOut (α : Type) where
  | ok : α → AttemptOut α
  | llmErr : Bool → String → AttemptOut α
  | agentErr : String → AttemptOut α
  | unexpectedErr : String → AttemptOut α

inductive RunErr where
  | llm : Bool → String → RunErr
  | agent : String → RunErr
deriving Repr, DecidableEq

structure RunTrace (α : Type) where
  result : Option (Except RunErr α)
  attempts : Nat
  sleeps : List Nat
deriving Repr

/-- One pass of the retry loop of BaseAgent.run, with r attempts still
allowed (the current one included) and the given attempt index; the
outcome of each attempt of the wrapped call is supplied by the outcome
function. -/
def agentRunGo {α : Type} (outcome : Nat → AttemptOut α) : Nat → Nat → RunTrace α
  | 0, _ => ⟨none, 0, []⟩
  | r + 1, attempt =>
    match outcome attempt with
    | AttemptOut.ok v => ⟨some (Except.ok v), 1, []⟩
    | AttemptOut.llmErr true m =>
      if r = 0 then ⟨some (Except.error (RunErr.llm true m)), 1, []⟩
      else
        let t := agentRunGo outcome r (attempt + 1)
        ⟨t.result, t.attempts + 1, 2 ^ attempt :: t.sleeps⟩
    | AttemptOut.llmErr false m => ⟨some (Except.error (RunErr.llm false m)), 1, []⟩
    | AttemptOut.agentErr m => ⟨some (Except.error (RunErr.agent m)), 1, []⟩
    | AttemptOut.unexpectedErr m =>
      ⟨some (Except.error (RunErr.agent ("Unexpected error: " ++ m))), 1, []⟩

/-- BaseAgent.run with the given max_retries. -/
def agentRun {α : Type} (outcome : Nat → AttemptOut α) (maxRetries : Nat) : RunTrace α :=
  agentRunGo outcome maxRetries 0

theorem agentRunGo_all_retryable {α : Type} (msg : Nat → String) :
    ∀ (r a : Nat), 1 ≤ r →
    agentRunGo (α := α) (fun i => AttemptOut.llmErr true (msg i)) r a =
      ⟨some (Except.error (RunErr.llm true (msg (a + r - 1)))), r,
       (List.range (r - 1)).map (fun i => 2 ^ (a + i))⟩ := by
  intro r
  induction r with
  | zero => intro a h; omega
  | succ r ih =>
    intro a _
    by_cases hr : r = 0
    · subst hr
      simp [agentRunGo]
    · have h1 : 1 ≤ r := Nat.one_le_iff_ne_zero.2 hr
      have hrec := ih (a + 1) h1
      simp only [agentRunGo, if_neg hr, hrec]
      have e1 : a + 1 + r - 1 = a + (r + 1) - 1 := by omega
      have e2 : (2 : Nat) ^ a :: List.map (fun i => 2 ^ (a + 1 + i)) (List.range (r - 1)) =
          List.map (fun i => 2 ^ (a + i)) (List.range (r + 1 - 1)) := by
        have hr1 : r + 1 - 1 = (r - 1) + 1 := by omega
        rw [hr1, List.range_succ_eq_map, List.map_cons, List.map_map]
        refine congrArg₂ List.cons (by simp) ?_
        refine (List.map_congr_left ?_).symm
        intro i _
        show (2 : Nat) ^ (a + (i + 1)) = 2 ^ (a + 1 + i)
        refine congrArg _ (by omega)
      rw [e1, e2]

theorem agentRunGo_nonretryable_at {α : Type} (msg : Nat → String) (m : String) (k : Nat) :
    ∀ (r a : Nat), a + r > k → a ≤ k →
    agentRunGo (α := α)
      (fun i => if i < k then AttemptOut.llmErr true (msg i) else AttemptOut.llmErr false m)
      r a =
      ⟨some (Except.error (RunErr.llm false m)), k - a + 1,
       (List.range (k - a)).map (fun i => 2 ^ (a + i))⟩ := by
  intro r
  induction r with
  | zero => intro a h1 h2; omega
  | succ r ih =>
    intro a h1 h2
    by_cases ha : a < k
    · have hr : r ≠ 0 := by omega
      have hrec := ih (a + 1) (by omega) (by omega)
      simp only [agentRunGo, if_pos ha, if_neg hr, hrec]
      have e1 : k - (a + 1) + 1 + 1 = k - a + 1 := by omega
      have e2 : (2 : Nat) ^ a :: List.map (fun i => 2 ^ (a + 1 + i)) (List.range (k - (a + 1))) =
          List.map (fun i => 2 ^ (a + i)) (List.range (k - a)) := by
        have hka : k - a = (k - (a + 1)) + 1 := by omega
        rw [hka, List.range_succ_eq_map, List.map_cons, List.map_map]
        refine congrArg₂ List.cons (by simp) ?_
        refine (List.map_congr_left ?_).symm
        intro i _
        show (2 : Nat) ^ (a + (i + 1)) = 2 ^ (a + 1 + i)
        refine congrArg _ (by omega)
      rw [e1, e2]
    · have hak : a = k := by omega
      subst hak
      simp [agentRunGo, Nat.lt_irrefl]

/-- Claim C5, counterexample: with max_retries = 0 the loop of
BaseAgent.run never executes, so the call makes zero attempts and
returns without propagating any error (Python returns None), whereas
the claim, quantified over every max_retries value, requires the last
error of the all-retryable run to propagate. -/
theorem C5_counterexample :
    (agentRun (α := Unit) (fun _ => AttemptOut.llmErr true "rate limit") 0).result = none ∧
    (agentRun (α := Unit) (fun _ => AttemptOut.llmErr true "rate limit") 0).attempts = 0 := by
  exact ⟨rfl, rfl⟩

/-- Claim C5 as amended (restricted to max_retries at least 1, the
zero case returning no result at all): when every attempt fails with a
retryable error the envelope makes exactly max_retries attempts,
sleeps 2 ^ attempt seconds after each non-final attempt (1, 2, 4, ...)
and propagates the error of the last attempt; when the attempts up to
index k are retryable failures and attempt k fails with a
non-retryable error, the envelope stops after attempt k with only the
earlier backoff sleeps, propagating that error immediately without a
further sleep. -/
theorem C5_retry_envelope :
    (∀ (α : Type) (msg : Nat → String) (n : Nat), 1 ≤ n →
      agentRun (α := α) (fun i => AttemptOut.llmErr true (msg i)) n =
        ⟨some (Except.error (RunErr.llm true (msg (n - 1)))), n,
         (List.range (n - 1)).map (fun i => 2 ^ i)⟩) ∧
    (∀ (α : Type) (msg : Nat → String) (m : String) (n k : Nat), k < n →
      agentRun (α := α)
        (fun i => if i < k then AttemptOut.llmErr true (msg i) else AttemptOut.llmErr false m)
        n =
        ⟨some (Except.error (RunErr.llm false m)), k + 1,
         (List.range k).map (fun i => 2 ^ i)⟩) := by
  constructor
  · intro α msg n hn
    have h := agentRunGo_all_retryable (α := α) msg n 0 hn
    simpa [agentRun] using h
  · intro α msg m n k hk
    have h := agentRunGo_nonretryable_at (α := α) msg m k n 0 (by omega) (by omega)
    simpa [agentRun] using h

/-- Claim C5, witness: three all-retryable attempts at max_retries = 3
give exactly 3 attempts, sleeps 1 and 2 seconds, and the final
rate-limit error. -/
theorem C5_retry_envelope_witness :
    agentRun (α := Unit) (fun _ => AttemptOut.llmErr true "rate limit") 3 =
      ⟨some (Except.error (RunErr.llm true "rate limit")), 3, [1, 2]⟩ := by
  have h := C5_retry_envelope.1 Unit (fun _ => "rate limit") 3 (by omega)
  rw [h]
  rfl

/-! ## Task-id allocation (add_task over mutate_json)

add_task allocates the id inside the update closure passed to
update_json: the id is formatted from the next_task_id of the current
document with a zero-padded three-digit decimal (the Python format
task_NNN), the header entry is appended, and next_task_id is
incremented; update_json then bumps the version.  update_json guards
the write with an optimistic version check - but the check is a
re-read of the file (state_manager.py lines 146-156) and the write
(lines 159-162) is a separate operation with no lock between them, so
an in-flight add_task is a sequence of three distinct atomic file
operations: the initial load, the version re-read, and the write of
the document computed from the loaded snapshot.  Two models follow:
addTaskSeq folds the closure over serialized commits (each application
seeing the previously committed document), which covers every
execution in which the check-and-write pairs do not interleave; and
the step machine addTaskRaceStep exposes the individual file
operations, so that the interleaving in which two calls both pass the
check at the same version - both returning the same id - can be
exhibited. -/

structure TasksFileState where
  tasks : List IndexEntry
  next : Nat
  version : Nat
deriving Repr, DecidableEq

/-- TaskPriority.from_string: lowercase, defaulting to medium on an
unknown value. -/
def priorityFromString (s : String) : String :=
  if s.toLower = "low" ∨ s.toLower = "medium" ∨ s.toLower = "high" then s.toLower
  else "medium"

/-- Decimal representation of a natural number (the Python %d), via
the base-ten digits. -/
def natDecimalRepr (n : Nat) : String :=
  if n = 0 then "0"
  else String.mk (((Nat.digits 10 n).reverse).map Nat.digitChar)

/-- Left inverse of the decimal printers: read the characters back as
base-ten digits. -/
def decodeDecimal (s : String) : Nat :=
  Nat.ofDigits 10 ((s.data.map (fun c => c.toNat - 48)).reverse)

theorem digitChar_toNat_of_lt (d : Nat) (h : d < 10) :
    (Nat.digitChar d).toNat - 48 = d := by
  interval_cases d <;> rfl

theorem decodeDecimal_natDecimalRepr (n : Nat) : decodeDecimal (natDecimalRepr n) = n := by
  by_cases h : n = 0
  · subst h; rfl
  · unfold natDecimalRepr decodeDecimal
    rw [if_neg h]
    have hdata : (String.mk (((Nat.digits 10 n).reverse).map Nat.digitChar)).data =
        ((Nat.digits 10 n).reverse).map Nat.digitChar := rfl
    rw [hdata, List.map_map]
    have hmap : ((Nat.digits 10 n).reverse).map ((fun c => c.toNat - 48) ∘ Nat.digitChar) =
        ((Nat.digits 10 n).reverse).map id := by
      refine List.map_congr_left ?_
      intro d hd
      have hd10 : d < 10 := Nat.digits_lt_base (by norm_num) (List.mem_reverse.1 hd)
      simpa using digitChar_toNat_of_lt d hd10
    rw [hmap, List.map_id, List.reverse_reverse, Nat.ofDigits_digits]

/-- The Python format spec 03d: zero-pad the decimal to width three. -/
def pad3 (n : Nat) : String :=
  (if n < 10 then "00" else if n < 100 then "0" else "") ++ natDecimalRepr n

/-- add_task formats ids as task_NNN from the next_task_id counter. -/
def formatTaskId (n : Nat) : String :=
  "task_" ++ pad3 n

theorem decodeDecimal_zeros_append (z s : String) (hz : ∀ c ∈ z.data, c = '0') :
    decodeDecimal (z ++ s) = decodeDecimal s := by
  unfold decodeDecimal
  rw [String.data_append, List.map_append, List.reverse_append]
  have hzz : z.data.map (fun c => c.toNat - 48) = List.replicate z.data.length 0 := by
    rw [List.eq_replicate_iff]
    refine ⟨by simp, ?_⟩
    intro b hb
    rcases List.mem_map.1 hb with ⟨c, hc, hcb⟩
    rw [hz c hc] at hcb
    simpa using hcb.symm
  rw [hzz, List.reverse_replicate]
  rw [Nat.ofDigits_append]
  have hzero : ∀ n : Nat, Nat.ofDigits 10 (List.replicate n (0 : Nat)) = 0 := by
    intro n
    induction n with
    | zero => simp [Nat.ofDigits]
    | succ n ih => simp [List.replicate_succ, Nat.ofDigits_cons, ih]
  simp [hzero]

theorem decodeDecimal_pad3 (n : Nat) : decodeDecimal (pad3 n) = n := by
  unfold pad3
  by_cases h1 : n < 10
  · rw [if_pos h1, decodeDecimal_zeros_append _ _ (by decide), decodeDecimal_natDecimalRepr]
  · rw [if_neg h1]
    by_cases h2 : n < 100
    · rw [if_pos h2, decodeDecimal_zeros_append _ _ (by decide), decodeDecimal_natDecimalRepr]
    · rw [if_neg h2]
      have : ("" : String) ++ natDecimalRepr n = natDecimalRepr n := by
        apply String.ext
        simp [String.data_append]
      rw [this, decodeDecimal_natDecimalRepr]

theorem formatTaskId_injective : Function.Injective formatTaskId := by
  intro a b h
  have hdata := congrArg String.data h
  simp only [formatTaskId, String.data_append] at hdata
  have hpad : pad3 a = pad3 b := String.ext (List.append_cancel_left hdata)
  have := congrArg decodeDecimal hpad
  rwa [decodeDecimal_pad3, decodeDecimal_pad3] at this

/-- The update closure of add_task, applied by update_json to the
current tasks.json document: allocate the id from next_task_id, append
the header entry, increment next_task_id; update_json then sets
version to the old version plus one. -/
def addTaskUpdate (now title priority : String) (d : TasksFileState) : TasksFileState :=
  { tasks := d.tasks ++ [⟨formatTaskId d.next, title, priorityFromString priority, now⟩],
    next := d.next + 1,
    version := d.version + 1 }

/-- A serialized sequence of add_task calls: each returns the id it
allocated and the next call sees the committed state. -/
def addTaskSeq (d : TasksFileState) :
    List (String × String × String) → List String × TasksFileState
  | [] => ([], d)
  | a :: rest =>
    let step := addTaskSeq (addTaskUpdate a.1 a.2.1 a.2.2 d) rest
    (formatTaskId d.next :: step.1, step.2)

/-- The phase of one in-flight add_task call between its atomic file
operations on tasks.json. -/
inductive AddPhase where
  | toRead : AddPhase
  | toCheck : TasksFileState → AddPhase
  | toWrite : TasksFileState → AddPhase
  | committed : String → AddPhase
deriving Repr, DecidableEq

/-- One atomic file operation of an in-flight add_task call (the
update_json body): the initial load takes a snapshot; the version
re-read check passes when the file still carries the snapshot version
and otherwise backs off and retries from a fresh load; the write then
stores the document computed from the snapshot and the call returns
the id allocated from the snapshot counter.  Check and write are
separate operations - the file may change in between. -/
def addTaskRaceStep (now title priority : String) (file : TasksFileState) :
    AddPhase → TasksFileState × AddPhase
  | AddPhase.toRead => (file, AddPhase.toCheck file)
  | AddPhase.toCheck snap =>
    if file.version = snap.version then (file, AddPhase.toWrite snap)
    else (file, AddPhase.toRead)
  | AddPhase.toWrite snap =>
    (addTaskUpdate now title priority snap, AddPhase.committed (formatTaskId snap.next))
  | AddPhase.committed i => (file, AddPhase.committed i)

/-- Two racing add_task calls against the shared tasks.json. -/
structure AddRaceState where
  file : TasksFileState
  threadA : AddPhase
  threadB : AddPhase
deriving Repr, DecidableEq

def addRaceStep (pa pb : String × String × String) (s : AddRaceState) (pick : Bool) :
    AddRaceState :=
  if pick then
    let r := addTaskRaceStep pa.1 pa.2.1 pa.2.2 s.file s.threadA
    { s with file := r.1, threadA := r.2 }
  else
    let r := addTaskRaceStep pb.1 pb.2.1 pb.2.2 s.file s.threadB
    { s with file := r.1, threadB := r.2 }

/-- Run two racing add_task calls under a given interleaving (true
picks the first thread). -/
def runAddRace (pa pb : String × String × String) (init : TasksFileState)
    (sched : List Bool) : AddRaceState :=
  sched.foldl (addRaceStep pa pb) ⟨init, AddPhase.toRead, AddPhase.toRead⟩

theorem formatTaskId_one : formatTaskId 1 = "task_001" := by
  have h1 : Nat.digits 10 1 = [1] := by
    rw [show (10 : ℕ) = 8 + 2 from rfl, show (1 : ℕ) = 0 + 1 from rfl,
      Nat.digits_add_two_add_one]
    simp
  show "task_" ++ pad3 1 = "task_001"
  unfold pad3 natDecimalRepr
  rw [if_pos (by norm_num : (1 : Nat) < 10), if_neg (by norm_num : ¬ (1 : Nat) = 0), h1]
  rfl

/-- Claim C9, counterexample: the version re-read check of update_json
is not atomic with the write, so two racing add_task calls can
interleave as load, load, check, check, write, write over an index
whose next_task_id is 1: both take snapshots at version 0, both pass
the re-read check (the file is still at version 0 when each checks),
and both commit and return the id formatted from counter 1 - the same
id task_001 twice, while the final index holds a single entry (the
first write is lost).  The returned ids are therefore not strictly
increasing and are reused when adds race. -/
theorem C9_counterexample :
    (runAddRace ("T1", "a", "medium") ("T2", "b", "medium") ⟨[], 1, 0⟩
      [true, false, true, false, true, false]).threadA =
      AddPhase.committed (formatTaskId 1) ∧
    (runAddRace ("T1", "a", "medium") ("T2", "b", "medium") ⟨[], 1, 0⟩
      [true, false, true, false, true, false]).threadB =
      AddPhase.committed (formatTaskId 1) ∧
    (runAddRace ("T1", "a", "medium") ("T2", "b", "medium") ⟨[], 1, 0⟩
      [true, false, true, false, true, false]).file.tasks.length = 1 ∧
    formatTaskId 1 = "task_001" := by
  exact ⟨rfl, rfl, rfl, formatTaskId_one⟩

/-- Claim C9 as amended: for any serialized sequence of add_task
calls - every execution in which each version-checked write commits
before the next call loads, which the claim describes for
non-racing adds and for the retries the version check forces - the
returned ids are exactly the task_NNN formats of the consecutive
counters starting at next_task_id, a strictly increasing counter
sequence; the ids never repeat, next_task_id strictly increases by one
with each add, and the version grows with each committed write.  The
guarantee does not extend to racing adds: the unsynchronized
check-then-write can commit the same id twice (see the
counterexample). -/
theorem C9_add_task_monotonic_ids (d : TasksFileState)
    (adds : List (String × String × String)) :
    (addTaskSeq d adds).1 =
      (List.range adds.length).map (fun i => formatTaskId (d.next + i)) ∧
    (addTaskSeq d adds).2.next = d.next + adds.length ∧
    (addTaskSeq d adds).2.version = d.version + adds.length ∧
    (addTaskSeq d adds).1.Nodup ∧
    (∀ (now title priority : String) (d' : TasksFileState),
      (addTaskUpdate now title priority d').next = d'.next + 1) := by
  have hmain : ∀ (adds : List (String × String × String)) (d : TasksFileState),
      (addTaskSeq d adds).1 =
        (List.range adds.length).map (fun i => formatTaskId (d.next + i)) ∧
      (addTaskSeq d adds).2.next = d.next + adds.length ∧
      (addTaskSeq d adds).2.version = d.version + adds.length := by
    intro adds
    induction adds with
    | nil => intro d; simp [addTaskSeq]
    | cons a rest ih =>
      intro d
      rcases ih (addTaskUpdate a.1 a.2.1 a.2.2 d) with ⟨h1, h2, h3⟩
      refine ⟨?_, ?_, ?_⟩
      · simp only [addTaskSeq, h1, List.length_cons, List.range_succ_eq_map,
          List.map_cons, List.map_map]
        refine congrArg₂ _ (by simp [addTaskUpdate]) ?_
        refine List.map_congr_left ?_
        intro i _
        simp only [Function.comp_apply, addTaskUpdate]
        refine congrArg _ (by omega)
      · show (addTaskSeq (addTaskUpdate a.1 a.2.1 a.2.2 d) rest).2.next =
          d.next + (a :: rest).length
        rw [h2]
        simp only [addTaskUpdate, List.length_cons]
        omega
      · show (addTaskSeq (addTaskUpdate a.1 a.2.1 a.2.2 d) rest).2.version =
          d.version + (a :: rest).length
        rw [h3]
        simp only [addTaskUpdate, List.length_cons]
        omega
  rcases hmain adds d with ⟨h1, h2, h3⟩
  refine ⟨h1, h2, h3, ?_, fun _ _ _ _ => rfl⟩
  rw [h1]
  refine List.Nodup.map ?_ (List.nodup_range _)
  intro i j hij
  have := formatTaskId_injective hij
  omega

/-! ## File-scope lock manager (FileLockManager.acquire_lock)

acquire_lock loops while the elapsed time is below the timeout
argument: it tries an exclusive create (success returns True); when the
lock file already exists it calls _is_lock_stale(lock_file, timeout) -
passing its own timeout argument as the staleness threshold - and
unlinks a stale lock and retries at once, otherwise sleeps 0.1 seconds
and retries.  When the while condition fails it returns False.  Time is
modelled in rational seconds: age0 is the age of the pre-existing lock
file when acquire_lock starts, the elapsed time advances by 1/10 per
sleep, and the age at a check is age0 plus the elapsed time.  With no
concurrent process, the create after a stale unlink succeeds, so the
stale branch yields True. -/

def isLockStaleM (age threshold : ℚ) : Bool :=
  decide (age > threshold)

inductive AcquireAction where
  | created : AcquireAction
  | unlinkedStale : AcquireAction
  | slept : AcquireAction
deriving Repr, DecidableEq

/-- The decision one iteration of the acquire loop takes, given the age
of the existing lock file (none when no lock file exists) and the
timeout argument, which acquire_lock passes to _is_lock_stale as the
staleness threshold. -/
def acquireIterAction (lockAge : Option ℚ) (timeout : ℚ) : AcquireAction :=
  match lockAge with
  | none => AcquireAction.created
  | some age =>
    if isLockStaleM age timeout then AcquireAction.unlinkedStale else AcquireAction.slept

/-- The acquire loop against a lock file of initial age age0 that no
other process touches: at elapsed time e the while condition is
e < timeout, the age is age0 + e, a stale lock is unlinked and the
subsequent exclusive create succeeds, and a non-stale lock causes a
0.1-second sleep. -/
def acquireLoop (age0 timeout : ℚ) : Nat → ℚ → Bool
  | 0, _ => false
  | fuel + 1, elapsed =>
    if elapsed < timeout then
      if isLockStaleM (age0 + elapsed) timeout then true
      else acquireLoop age0 timeout fuel (elapsed + 1 / 10)
    else false

/-- Enough loop iterations to reach the timeout by 0.1-second steps: a
positive rational is at most its numerator, so ten times the numerator
bounds the number of sleeps. -/
def acquireFuel (timeout : ℚ) : Nat :=
  timeout.num.toNat * 10 + 2

/-- FileLockManager.acquire_lock against a lock directory that holds
either no lock for the path or one of age age0. -/
def acquireLock (lockAtStart : Option ℚ) (timeout : ℚ) : Bool :=
  match lockAtStart with
  | none => decide (0 < timeout)
  | some age0 => acquireLoop age0 timeout (acquireFuel timeout) 0

theorem acquireLoop_succ_eq (age0 timeout : ℚ) (fuel : Nat) (e : ℚ) :
    acquireLoop age0 timeout (fuel + 1) e =
      if e < timeout then
        (if isLockStaleM (age0 + e) timeout then true
         else acquireLoop age0 timeout fuel (e + 1 / 10))
      else false := rfl

theorem acquireLock_true_of_stale (age0 timeout : ℚ) (ht : 0 < timeout)
    (hs : age0 > timeout) : acquireLock (some age0) timeout = true := by
  show acquireLoop age0 timeout (acquireFuel timeout) 0 = true
  have hfe : acquireFuel timeout = (timeout.num.toNat * 10 + 1) + 1 := rfl
  have hstale : isLockStaleM (age0 + 0) timeout = true := by
    simp only [isLockStaleM, decide_eq_true_eq]
    linarith
  rw [hfe, acquireLoop_succ_eq, if_pos ht, hstale]
  simp

theorem acquireLoop_false_of_nonpos (age0 timeout : ℚ) (h : age0 ≤ 0) :
    ∀ (fuel : Nat) (e : ℚ), acquireLoop age0 timeout fuel e = false := by
  intro fuel
  induction fuel with
  | zero => intro e; rfl
  | succ fuel ih =>
    intro e
    by_cases he : e < timeout
    · have hns : ¬ (age0 + e > timeout) := by linarith
      simp [acquireLoop, he, isLockStaleM, hns, ih]
    · simp [acquireLoop, he]

/-- Claim C6, counterexample: the staleness threshold of the
acquire-time check is the timeout argument of the call, not a fixed 30
seconds: under the driver's 10-second per-file lock timeout a
15-second-old lock IS judged stale (even though 15 is below 30), is
unlinked, and the acquisition succeeds immediately. -/
theorem C6_counterexample :
    isLockStaleM 15 10 = true ∧
    acquireIterAction (some 15) 10 = AcquireAction.unlinkedStale ∧
    acquireLock (some 15) 10 = true ∧
    ((15 : ℚ) ≤ 30) := by
  refine ⟨by decide, by decide, ?_, by decide⟩
  exact acquireLock_true_of_stale 15 10 (by norm_num) (by norm_num)

/-- Claim C6 as amended: an existing lock is judged stale exactly when
its age exceeds the caller's timeout argument - acquire_lock passes
its own timeout to _is_lock_stale as the threshold, so the staleness
cutoff is not independent of the caller (under the driver's 10-second
timeout, a 15-second-old lock IS stale); a stale lock is unlinked and
acquisition succeeds, a non-stale lock causes a 100 ms sleep and a
retry, and when the lock never turns stale during the wait the call
returns False once the timeout elapses; with no existing lock the
acquire succeeds at once (for a positive timeout). -/
theorem C6_acquire_lock_staleness :
    (∀ timeout : ℚ, acquireLock none timeout = decide (0 < timeout)) ∧
    (∀ age timeout : ℚ, acquireIterAction (some age) timeout =
      (if age > timeout then AcquireAction.unlinkedStale else AcquireAction.slept)) ∧
    (∀ age0 timeout : ℚ, 0 < timeout → age0 > timeout →
      acquireLock (some age0) timeout = true) ∧
    (∀ age0 timeout : ℚ, age0 ≤ 0 →
      acquireLock (some age0) timeout = false) := by
  refine ⟨fun _ => rfl, ?_, ?_, ?_⟩
  · intro age timeout
    by_cases h : age > timeout <;> simp [acquireIterAction, isLockStaleM, h]
  · intro age0 timeout ht hs
    exact acquireLock_true_of_stale age0 timeout ht hs
  · intro age0 timeout h
    exact acquireLoop_false_of_nonpos age0 timeout h _ 0

/-- Claim C6, witness: the amended theorem evaluated at the concrete
inputs of the claim (timeout 10, lock age 15) and at a lock of age 0
that therefore never turns stale during the wait. -/
theorem C6_acquire_lock_staleness_witness :
    acquireLock (some 15) 10 = true ∧ acquireLock (some 0) 10 = false :=
  ⟨C6_acquire_lock_staleness.2.2.1 15 10 (by norm_num) (by norm_num),
   C6_acquire_lock_staleness.2.2.2 0 10 (by norm_num)⟩

/-! ## Worker response handling (WorkerAgent.parse_response and
update_state, BaseAgent._run_internal step 4, the worker handlers of
run_main_loop)

The generic Role Runner wraps the parser: when parse_response raises,
the parsed result becomes a dictionary holding the error message and
the full raw response, and the state mutation still runs on it.  The
Worker, however, wraps its own parsing in a try/except that returns a
fallback dictionary whose report is the raw response truncated to 1000
characters (or the text "No response" when the response is empty,
which Python treats as falsy), with the error recorded.  Its
update_state then calls complete_task on that result - but afterwards
it reads the completed count with task_stats.get("completed", 0),
where task_stats is the TaskStatistics dataclass returned by
get_task_statistics; TaskStatistics defines no get method (unlike
Task), so this attribute lookup raises AttributeError
unconditionally, after the completion has been written.  The exception
propagates out of update_state, BaseAgent.run wraps it into a
non-retryable agent error prefixed "Unexpected error: ", and the
worker handlers in run_main_loop catch it and call fail_task with that
message - so the task record, transiently completed, ends failed with
the wrapped AttributeError text, while the parse error survives only
inside the stored result dictionary.  The parsing itself
(regular-expression extraction of report and commit data) is
abstracted as an Except value describing whether the body of the
parser raised; a raising mutation is a pair of the raised message and
the store as mutated up to the raise. -/

/-- BaseAgent._run_internal step 4: the parsed result, with the
fallback dictionary attached when the parser raised. -/
def baseParsedResult (inner : Except String JObj) (response : String) : JObj :=
  match inner with
  | Except.ok d => d
  | Except.error e => [("response", JVal.jstr response), ("error", JVal.jstr e)]

/-- The fallback dictionary WorkerAgent.parse_response returns from its
own except branch. -/
def workerParseFallback (response errMsg taskId : String) : JObj :=
  [("report", JVal.jstr (if response = "" then "No response" else response.take 1000)),
   ("commit_hash", JVal.jnull),
   ("commit_message", JVal.jnull),
   ("task_id", JVal.jstr taskId),
   ("error", JVal.jstr errMsg)]

/-- WorkerAgent.parse_response: the normally parsed dictionary, or the
fallback when the body raised. -/
def workerParseResponse (inner : Except String JObj) (response taskId : String) : JObj :=
  match inner with
  | Except.ok d => d
  | Except.error e => workerParseFallback response e taskId

/-- models.TaskStatistics, the dataclass returned by
get_task_statistics: the categorized counts, with to_dict, from_dict
and from_tasks as its only methods - in particular no get and no item
access (Task defines those for dict compatibility, TaskStatistics does
not). -/
structure TaskStatisticsRec where
  total : Nat
  completed : Nat
  failed : Nat
  pending : Nat
  inProgress : Nat
deriving Repr, DecidableEq

/-- The message of the AttributeError raised by
task_stats.get("completed", 0) at worker.py line 172, since
TaskStatisticsRec has no get operation (text paraphrased without
quote characters). -/
def taskStatisticsGetError : String :=
  "TaskStatistics object has no attribute get"

/-- WorkerAgent.update_state: resolve the task id (the result field or
the current task id, raising when both are empty), call complete_task
with the full result dictionary, skip the intent save when the result
carries no intent key (the parse fallback carries none; save failures
are caught anyway) - and then read the completed count with
task_stats.get on the TaskStatistics dataclass, which raises
AttributeError unconditionally, after the completion was written.  The
returned pair is the raised exception message (none when no exception
escapes) together with the store as mutated up to that point; the
empty string models Python None. -/
def workerUpdateState (now currentTaskId : String) (result : JObj) (st : TaskStore) :
    Option String × TaskStore :=
  let tid :=
    match dictGet result "task_id" with
    | some (JVal.jstr s) => if s = "" then currentTaskId else s
    | _ => currentTaskId
  if tid = "" then (some "No task ID available", st)
  else (some taskStatisticsGetError, completeTask now tid result st)

/-- A Worker run whose parser body raised: parse falls back,
update_state runs on the fallback and raises after its mutation, and
BaseAgent.run wraps the unexpected exception into a non-retryable
agent error prefixed with "Unexpected error: ". -/
def workerRunAfterParseFailure (now response errMsg taskId : String) (st : TaskStore) :
    Option String × TaskStore :=
  match workerUpdateState now taskId
    (workerParseResponse (Except.error errMsg) response taskId) st with
  | (some m, st1) => (some ("Unexpected error: " ++ m), st1)
  | (none, st1) => (none, st1)

/-- The worker handlers of run_main_loop (the except branches of
run_worker_task in parallel mode and of the sequential branch): an
exception escaping the worker run makes the driver call fail_task
with the stringified error. -/
def driverHandleWorkerRun (now2 taskId : String) (r : Option String × TaskStore) : TaskStore :=
  match r with
  | (none, st1) => st1
  | (some m, st1) => failTask now2 taskId m st1

def c8Store : TaskStore :=
  { index := [⟨"task_001", "t", "medium", "T0"⟩],
    files := [("task_001", [("id", JVal.jstr "task_001"),
                            ("status", JVal.jstr "in_progress")])],
    results := [] }

def c8LongResponse : String :=
  String.mk (List.replicate 1001 'x')

theorem string_length_take (s : String) (n : Nat) : (s.take n).length = min n s.length := by
  rw [String.take_eq]
  show (s.1.take n).length = min n s.length
  rw [List.length_take]
  rfl

theorem c8LongResponse_length : c8LongResponse.length = 1001 := by
  show c8LongResponse.data.length = 1001
  rw [show c8LongResponse.data = List.replicate 1001 'x' from rfl, List.length_replicate]

theorem dictGet_dictUpdate_of_notmem (o patch : JObj) (k : String)
    (hk : ∀ q ∈ patch, q.1 ≠ k) : dictGet (dictUpdate o patch) k = dictGet o k :=
  dictGet_foldl_of_notmem patch o k hk

/-- Claim C8, counterexample: a Worker run whose parser failed IS
aborted - update_state raises AttributeError at the statistics read
after writing the completion - so after the driver handler runs, the
task ends failed with the wrapped AttributeError text, which is not
the parse error (the parse error survives only inside the stored
result); and the raw output IS lost beyond 1000 characters - the
fallback report of a 1001-character response keeps only 1000
characters. -/
theorem C8_counterexample :
    (workerRunAfterParseFailure "T2" "RAW" "boom" "task_001" c8Store).1 =
      some ("Unexpected error: " ++ taskStatisticsGetError) ∧
    taskStatusAt (workerRunAfterParseFailure "T2" "RAW" "boom" "task_001" c8Store).2
      "task_001" = "completed" ∧
    taskStatusAt (driverHandleWorkerRun "T3" "task_001"
      (workerRunAfterParseFailure "T2" "RAW" "boom" "task_001" c8Store)) "task_001" =
      "failed" ∧
    jStrGetD (loadTaskState (driverHandleWorkerRun "T3" "task_001"
        (workerRunAfterParseFailure "T2" "RAW" "boom" "task_001" c8Store)) "task_001")
      "error" "" = "Unexpected error: " ++ taskStatisticsGetError ∧
    "Unexpected error: " ++ taskStatisticsGetError ≠ "boom" ∧
    (jStrGetD (workerParseFallback c8LongResponse "boom" "task_001") "report" "").length = 1000 ∧
    c8LongResponse.length = 1001 := by
  have hne : ¬ c8LongResponse = "" := by
    intro h
    have h2 : c8LongResponse.data.length = ("" : String).data.length := by rw [h]
    rw [show c8LongResponse.data = List.replicate 1001 'x' from rfl,
      List.length_replicate] at h2
    exact absurd h2 (by decide)
  refine ⟨rfl, rfl, rfl, rfl, by decide, ?_, c8LongResponse_length⟩
  have hrep : jStrGetD (workerParseFallback c8LongResponse "boom" "task_001") "report" "" =
      (if c8LongResponse = "" then "No response" else c8LongResponse.take 1000) := rfl
  rw [hrep, if_neg hne, string_length_take, c8LongResponse_length]
  omega

/-- Claim C8 as amended: a parser failure is by itself never fatal -
for a generic role the runner attaches the error message together with
the full raw response and still runs the state mutation.  The Worker
catches parse errors inside its own parser, truncating the raw
response to 1000 characters in the fallback report (raw output beyond
that is lost); its state mutation still runs and writes the completion
(the task is transiently completed, the results file holds the
truncated report, the stored result carries the parse error), but then
raises AttributeError reading the statistics (TaskStatistics has no
get method), the envelope wraps the exception, and the driver handler
marks the task failed with the wrapped AttributeError message rather
than the parse error; the parse error remains only in the result field
of the task record. -/
theorem C8_parse_failure_handling :
    (∀ (e response : String),
      dictGet (baseParsedResult (Except.error e) response) "response" =
        some (JVal.jstr response) ∧
      dictGet (baseParsedResult (Except.error e) response) "error" = some (JVal.jstr e)) ∧
    (∀ (now response e taskId : String) (st : TaskStore), taskId ≠ "" →
      workerRunAfterParseFailure now response e taskId st =
        (some ("Unexpected error: " ++ taskStatisticsGetError),
         completeTask now taskId (workerParseFallback response e taskId) st)) ∧
    (∀ (now response e taskId : String) (st : TaskStore),
      taskStatusAt (completeTask now taskId (workerParseFallback response e taskId) st) taskId =
        "completed") ∧
    (∀ (now response e taskId : String) (st : TaskStore),
      assocGet (completeTask now taskId (workerParseFallback response e taskId) st).results
          ("results/" ++ taskId ++ ".md") =
        some (if response = "" then "No response" else response.take 1000)) ∧
    (∀ (now now2 response e taskId : String) (st : TaskStore), taskId ≠ "" →
      taskStatusAt (driverHandleWorkerRun now2 taskId
        (workerRunAfterParseFailure now response e taskId st)) taskId = "failed" ∧
      dictGet (loadTaskState (driverHandleWorkerRun now2 taskId
          (workerRunAfterParseFailure now response e taskId st)) taskId) "error" =
        some (JVal.jstr ("Unexpected error: " ++ taskStatisticsGetError)) ∧
      dictGet (loadTaskState (driverHandleWorkerRun now2 taskId
          (workerRunAfterParseFailure now response e taskId st)) taskId) "result" =
        some (JVal.jobj (workerParseFallback response e taskId))) := by
  have hrun : ∀ (now response e taskId : String) (st : TaskStore), taskId ≠ "" →
      workerRunAfterParseFailure now response e taskId st =
        (some ("Unexpected error: " ++ taskStatisticsGetError),
         completeTask now taskId (workerParseFallback response e taskId) st) := by
    intro now response e taskId st hne
    have hget : dictGet (workerParseFallback response e taskId) "task_id" =
        some (JVal.jstr taskId) := rfl
    simp only [workerRunAfterParseFailure, workerUpdateState, workerParseResponse, hget]
    simp [hne]
  have hfile2 : ∀ (now response e taskId : String) (st : TaskStore),
      loadTaskState (completeTask now taskId (workerParseFallback response e taskId) st)
        taskId =
      dictSet (dictUpdate (loadTaskState st taskId)
        [("status", JVal.jstr "completed"), ("completed_at", JVal.jstr now),
         ("result_file", JVal.jstr ("results/" ++ taskId ++ ".md")),
         ("result", JVal.jobj (workerParseFallback response e taskId))])
        "updated_at" (JVal.jstr now) := by
    intro now response e taskId st
    show loadTaskState (updateTask now taskId _ _) taskId = _
    unfold loadTaskState
    rw [loadTaskState_updateTask_self]
    rfl
  refine ⟨?_, hrun, ?_, ?_, ?_⟩
  · intro e response
    exact ⟨rfl, rfl⟩
  · intro now response e taskId st
    apply taskStatusAt_updateTask_status
    · apply dictGet_dictUpdate_mem
      · simp
      · simp
    · rfl
  · intro now response e taskId st
    have hrep : jStrGetD (workerParseFallback response e taskId) "report" "" =
        (if response = "" then "No response" else response.take 1000) := rfl
    have hres : (completeTask now taskId (workerParseFallback response e taskId) st).results =
        assocSet st.results ("results/" ++ taskId ++ ".md")
          (jStrGetD (workerParseFallback response e taskId) "report" "") := by
      simp [completeTask, updateTask]
    rw [hres, assocGet_assocSet, hrep]
    simp
  · intro now now2 response e taskId st hne
    rw [hrun now response e taskId st hne]
    show taskStatusAt (failTask now2 taskId _ _) taskId = "failed" ∧ _ ∧ _
    refine ⟨?_, ?_, ?_⟩
    · apply taskStatusAt_updateTask_status
      · apply dictGet_dictUpdate_mem
        · simp
        · simp
      · rfl
    · show dictGet (loadTaskState (updateTask now2 taskId _ _) taskId) "error" = _
      unfold loadTaskState
      rw [loadTaskState_updateTask_self]
      simp only [Option.getD_some]
      rw [show dictHas [("status", JVal.jstr "failed"),
          ("failed_at", JVal.jstr now2),
          ("error", JVal.jstr ("Unexpected error: " ++ taskStatisticsGetError))]
          "status" = true from rfl, if_pos rfl]
      rw [dictGet_dictSet]
      rw [if_neg (by decide : ¬ ("error" = "updated_at"))]
      apply dictGet_dictUpdate_mem
      · simp
      · simp
    · show dictGet (loadTaskState (updateTask now2 taskId _ _) taskId) "result" = _
      unfold loadTaskState
      rw [loadTaskState_updateTask_self]
      simp only [Option.getD_some]
      rw [show dictHas [("status", JVal.jstr "failed"),
          ("failed_at", JVal.jstr now2),
          ("error", JVal.jstr ("Unexpected error: " ++ taskStatisticsGetError))]
          "status" = true from rfl, if_pos rfl]
      rw [dictGet_dictSet]
      rw [if_neg (by decide : ¬ ("result" = "updated_at"))]
      rw [dictGet_dictUpdate_of_notmem _ _ _ (by
        intro q hq
        simp only [List.mem_cons, List.not_mem_nil, or_false] at hq
        rcases hq with h | h | h <;> (subst h; simp))]
      rw [hfile2 now response e taskId st]
      rw [dictGet_dictSet]
      rw [if_neg (by decide : ¬ ("result" = "updated_at"))]
      apply dictGet_dictUpdate_mem
      · simp
      · simp

/-- Claim C8, witness: the amended theorem evaluated at a concrete
worker run whose parser raised, discharging the nonempty-task-id
hypothesis: the run raises the wrapped AttributeError after writing
the completion. -/
theorem C8_parse_failure_handling_witness :
    workerRunAfterParseFailure "T2" "RAW" "boom" "task_001" c8Store =
      (some ("Unexpected error: " ++ taskStatisticsGetError),
       completeTask "T2" "task_001"
         (workerParseFallback "RAW" "boom" "task_001") c8Store) :=
  C8_parse_failure_handling.2.1 "T2" "RAW" "boom" "task_001" c8Store (by decide)

/-! ## Task scheduler (TaskScheduler in task_scheduler.py)

The scheduler works on typed task records (models.Task): status and
priority are enumerations after from_dict coercion, files and
dependencies are string lists.  get_task_by_id first checks the index
and then loads the per-task file, falling back to a fresh pending task
built from the index header when the file is absent.
get_pending_tasks walks the index in order (creation order, since
add_task appends) and keeps the pending tasks. -/

inductive TPriority where
  | low : TPriority
  | medium : TPriority
  | high : TPriority
deriving Repr, DecidableEq

inductive TStatus where
  | pending : TStatus
  | inProgress : TStatus
  | completed : TStatus
  | failed : TStatus
deriving Repr, DecidableEq

structure SchedTask where
  id : String
  title : String
  description : String
  priority : TPriority
  status : TStatus
  files : List String
  dependencies : List String
deriving Repr, DecidableEq

structure SchedEntry where
  id : String
  title : String
  priority : TPriority
  createdAt : String
deriving Repr, DecidableEq

structure SchedStore where
  index : List SchedEntry
  files : List (String × SchedTask)
deriving Repr

/-- The Task built from an index header when the per-task file is
absent (fresh pending task with empty description, files and
dependencies). -/
def defaultTaskFromEntry (e : SchedEntry) : SchedTask :=
  { id := e.id, title := e.title, description := "", priority := e.priority,
    status := TStatus.pending, files := [], dependencies := [] }

/-- StateManager.get_task_by_id. -/
def getTaskById (st : SchedStore) (taskId : String) : Option SchedTask :=
  match st.index.find? (fun e => e.id == taskId) with
  | none => none
  | some e =>
    match assocGet st.files taskId with
    | some t => some t
    | none => some (defaultTaskFromEntry e)

/-- StateManager.get_pending_tasks: iterate the index in order and
keep the tasks whose loaded record is pending. -/
def getPendingTasks (st : SchedStore) : List SchedTask :=
  st.index.filterMap (fun e =>
    match getTaskById st e.id with
    | some t => if t.status = TStatus.pending then some t else none
    | none => none)

/-- Whether a dependency id refers to a completed task
(TaskScheduler._filter_ready_tasks inner check). -/
def depCompleted (st : SchedStore) (depId : String) : Bool :=
  match getTaskById st depId with
  | some d => d.status = TStatus.completed
  | none => false

/-- TaskScheduler._filter_ready_tasks. -/
def filterReadyTasks (st : SchedStore) (tasks : List SchedTask) : List SchedTask :=
  tasks.filter (fun t => t.dependencies.all (fun dep => depCompleted st dep))

/-- TaskScheduler._get_priority_score (high 3, medium 2, low 1). -/
def priorityScore (t : SchedTask) : Nat :=
  match t.priority with
  | TPriority.high => 3
  | TPriority.medium => 2
  | TPriority.low => 1

/-! ### The three file-reference patterns of _extract_task_files

The Python regular expressions are embedded as scanners over the
character list of the description, replicating the re module scanning
discipline: try a match at each position from the left, emit group 1
and continue after the match, otherwise advance one character.  The
character classes follow the patterns: word characters (ASCII
letters, digits and underscore - the Unicode word characters Python
also accepts are outside the inputs treated here) plus hyphen and
slash for the bare-token pattern, non-whitespace for the explicit
file: pattern, and non-quote for the quoted pattern.  The extension
alternation is tried in source order (py before json, so a bare
app.json yields app.js from the bare-token pattern, while the quoted
pattern requires the closing quote right after the extension). -/

def pyWordChar (c : Char) : Bool :=
  c.isAlphanum || c == '_' || c == '-' || c == '/'

def isPySpace (c : Char) : Bool :=
  c == ' ' || c == '\t' || c == '\n' || c == '\r' || c == '\x0b' || c == '\x0c'

def isQuoteChar (c : Char) : Bool :=
  c == Char.ofNat 34 || c == Char.ofNat 39 || c == Char.ofNat 96

def extAlternatives : List String :=
  ["py", "ts", "js", "md", "json", "yml", "yaml", "txt", "html", "css"]

/-- Does the input start with the pattern characters (lowercasing the
input when ci is set)? -/
def matchesAt (ci : Bool) : List Char → List Char → Bool
  | [], _ => true
  | _ :: _, [] => false
  | p :: ps, c :: cs => (if ci then c.toLower == p else c == p) && matchesAt ci ps cs

/-- First alternative (in source order) that matches at the input;
returns its length. -/
def tryExts (ci : Bool) (cs : List Char) : List String → Option Nat
  | [] => none
  | e :: es => if matchesAt ci e.data cs then some e.data.length else tryExts ci cs es

/-- Case-insensitive literal match, returning the rest of the input. -/
def matchKeywordCI : List Char → List Char → Option (List Char)
  | [], rest => some rest
  | _ :: _, [] => none
  | p :: ps, c :: cs => if c.toLower == p then matchKeywordCI ps cs else none

/-- Pattern 3 at one position: a maximal nonempty run of word
characters, a dot, then the first matching extension (case
sensitive - this findall call passes no IGNORECASE).  Returns group 1
and the rest of the input after the match. -/
def p3MatchAt (cs : List Char) : Option (List Char × List Char) :=
  let run := cs.takeWhile pyWordChar
  if run.length = 0 then none
  else
    match cs.drop run.length with
    | '.' :: after =>
      match tryExts false after extAlternatives with
      | some elen => some (run ++ '.' :: after.take elen, after.drop elen)
      | none => none
    | _ => none

def p3Scan : List Char → Nat → List String
  | _, 0 => []
  | [], _ => []
  | c :: cs, fuel + 1 =>
    match p3MatchAt (c :: cs) with
    | some (g, rest) => String.mk g :: p3Scan rest fuel
    | none => p3Scan cs fuel

/-- Greedy backtracking of pattern 1: the largest dot index j of the
non-whitespace run (at least one character before the dot) such that
an extension matches case-insensitively after it. -/
def p1TryDot (run : List Char) : Nat → Option (Nat × Nat)
  | 0 => none
  | j + 1 =>
    match run.drop (j + 1) with
    | '.' :: after =>
      match tryExts true after extAlternatives with
      | some elen => some (j + 1, elen)
      | none => p1TryDot run j
    | _ => p1TryDot run j

/-- Pattern 1 at one position: the literal file: (case insensitive),
optional whitespace, then a non-whitespace run holding a dot-extension
split.  Group 1 is the run up to the matched extension. -/
def p1MatchAt (cs : List Char) : Option (List Char × List Char) :=
  match matchKeywordCI "file:".data cs with
  | none => none
  | some afterKw =>
    let afterSp := afterKw.dropWhile isPySpace
    let run := afterSp.takeWhile (fun c => !isPySpace c)
    if run.length = 0 then none
    else
      match p1TryDot run (run.length - 1) with
      | some (j, elen) => some (run.take (j + 1 + elen), afterSp.drop (j + 1 + elen))
      | none => none

def p1Scan : List Char → Nat → List String
  | _, 0 => []
  | [], _ => []
  | c :: cs, fuel + 1 =>
    match p1MatchAt (c :: cs) with
    | some (g, rest) => String.mk g :: p1Scan rest fuel
    | none => p1Scan cs fuel

/-- Pattern 2 suffix test: the inner run between quotes must end in a
dot followed by an extension (case insensitive) with at least one
character before the dot, because the closing-quote class anchors the
extension to the end of the run. -/
def p2SuffixOk (run : List Char) : Bool :=
  extAlternatives.any (fun e =>
    decide (e.data.length + 2 ≤ run.length) &&
    (match run.drop (run.length - e.data.length - 1) with
     | c :: rest => c == '.' && matchesAt true e.data rest
     | [] => false))

/-- Pattern 2 at one position: an opening quote character, a maximal
nonempty run of non-quote characters, a closing quote character, with
the run ending in a dot-extension.  Group 1 is the whole run; the scan
resumes after the closing quote. -/
def p2MatchAt (cs : List Char) : Option (List Char × List Char) :=
  match cs with
  | [] => none
  | c :: cs1 =>
    if isQuoteChar c then
      let run := cs1.takeWhile (fun ch => !isQuoteChar ch)
      if run.length = 0 then none
      else
        match cs1.drop run.length with
        | _ :: rest2 => if p2SuffixOk run then some (run, rest2) else none
        | [] => none
    else none

def p2Scan : List Char → Nat → List String
  | _, 0 => []
  | [], _ => []
  | c :: cs, fuel + 1 =>
    match p2MatchAt (c :: cs) with
    | some (g, rest) => String.mk g :: p2Scan rest fuel
    | none => p2Scan cs fuel

/-- Python str.strip with a character set: drop the set from both
ends. -/
def stripChars (s : String) (p : Char → Bool) : String :=
  String.mk (((s.data.dropWhile p).reverse.dropWhile p).reverse)

/-- The normalization in _extract_task_files: strip whitespace, then
strip quote characters. -/
def normalizeFilePath (s : String) : String :=
  stripChars (stripChars s isPySpace) isQuoteChar

/-- Normalize, drop empties, deduplicate keeping first occurrences. -/
def dedupKeep (l : List String) : List String :=
  l.foldl (fun acc f =>
    let n := normalizeFilePath f
    if n ≠ "" ∧ ¬ acc.contains n then acc ++ [n] else acc) []

/-- TaskScheduler._extract_task_files: the files field, then the
matches of the three description patterns, normalized and
deduplicated. -/
def extractTaskFiles (t : SchedTask) : List String :=
  let d := t.description.data
  let fuel := d.length + 1
  dedupKeep (t.files ++ p1Scan d fuel ++ p2Scan d fuel ++ p3Scan d fuel)

/-! ### Priority sort and conflict-free selection -/

/-- One insertion step of the stable descending sort: skip the
existing entries of strictly higher score, so that equal-score entries
keep their original relative order (Python list.sort is stable and
reverse=True preserves tie order). -/
def insertDescStable (t : SchedTask) : List SchedTask → List SchedTask
  | [] => [t]
  | y :: ys =>
    if priorityScore t < priorityScore y then y :: insertDescStable t ys
    else t :: y :: ys

/-- The stable sort by descending priority score
(ready_tasks.sort(key=..., reverse=True)). -/
def sortByPriorityDesc : List SchedTask → List SchedTask
  | [] => []
  | x :: xs => insertDescStable x (sortByPriorityDesc xs)

/-- The conflict test of the selection loop: some intended file is
already reserved in this batch or currently locked. -/
def anyConflict (isLocked : String → Bool) (locked : List String) (tf : List String) : Bool :=
  tf.any (fun f => decide (f ∈ locked) || isLocked f)

/-- The selection loop of get_parallelizable_tasks: walk the sorted
candidates, skip conflicting ones, reserve the files of an accepted
one, and stop once max_workers tasks are selected (the length test
runs after the append). -/
def selectLoop (isLocked : String → Bool) (k : Nat) :
    List SchedTask → List SchedTask → List String → List SchedTask
  | [], sel, _ => sel
  | t :: rest, sel, locked =>
    let tf := extractTaskFiles t
    if anyConflict isLocked locked tf then selectLoop isLocked k rest sel locked
    else
      let sel2 := sel ++ [t]
      if k ≤ sel2.length then sel2
      else selectLoop isLocked k rest sel2 (locked ++ tf)

/-- TaskScheduler.get_parallelizable_tasks: pending tasks, dependency
filter, stable priority sort, conflict-free selection. -/
def getParallelizableTasks (st : SchedStore) (isLocked : String → Bool) (k : Nat) :
    List SchedTask :=
  let pending := getPendingTasks st
  if pending.isEmpty then []
  else selectLoop isLocked k (sortByPriorityDesc (filterReadyTasks st pending)) [] []

/-! ### Properties of the stable priority sort -/

theorem insertDescStable_perm (t : SchedTask) (l : List SchedTask) :
    (insertDescStable t l).Perm (t :: l) := by
  induction l with
  | nil => simp [insertDescStable]
  | cons y ys ih =>
    by_cases h : priorityScore t < priorityScore y
    · simp only [insertDescStable, if_pos h]
      exact (ih.cons y).trans (List.Perm.swap t y ys)
    · simp [insertDescStable, if_neg h]

theorem sortByPriorityDesc_perm (l : List SchedTask) :
    (sortByPriorityDesc l).Perm l := by
  induction l with
  | nil => simp [sortByPriorityDesc]
  | cons x xs ih =>
    exact (insertDescStable_perm x (sortByPriorityDesc xs)).trans (ih.cons x)

theorem mem_insertDescStable {u t : SchedTask} {l : List SchedTask} :
    u ∈ insertDescStable t l ↔ u = t ∨ u ∈ l := by
  rw [(insertDescStable_perm t l).mem_iff, List.mem_cons]

theorem insertDescStable_pairwise (t : SchedTask) (l : List SchedTask)
    (h : List.Pairwise (fun a b => priorityScore b ≤ priorityScore a) l) :
    List.Pairwise (fun a b => priorityScore b ≤ priorityScore a) (insertDescStable t l) := by
  induction l with
  | nil => simp [insertDescStable]
  | cons y ys ih =>
    rcases List.pairwise_cons.1 h with ⟨hy, hys⟩
    by_cases hc : priorityScore t < priorityScore y
    · simp only [insertDescStable, if_pos hc]
      refine List.pairwise_cons.2 ⟨?_, ih hys⟩
      intro z hz
      rcases mem_insertDescStable.1 hz with hz | hz
      · subst hz; omega
      · exact hy z hz
    · simp only [insertDescStable, if_neg hc]
      refine List.pairwise_cons.2 ⟨?_, h⟩
      intro z hz
      rcases List.mem_cons.1 hz with hz | hz
      · subst hz; omega
      · have := hy z hz; omega

theorem sortByPriorityDesc_pairwise (l : List SchedTask) :
    List.Pairwise (fun a b => priorityScore b ≤ priorityScore a) (sortByPriorityDesc l) := by
  induction l with
  | nil => simp [sortByPriorityDesc]
  | cons x xs ih => exact insertDescStable_pairwise x _ ih

theorem insertDescStable_filter (t : SchedTask) (l : List SchedTask) (n : Nat) :
    (insertDescStable t l).filter (fun x => decide (priorityScore x = n)) =
      if priorityScore t = n then
        t :: l.filter (fun x => decide (priorityScore x = n))
      else l.filter (fun x => decide (priorityScore x = n)) := by
  induction l with
  | nil =>
    by_cases h : priorityScore t = n <;> simp [insertDescStable, List.filter, h]
  | cons y ys ih =>
    by_cases hc : priorityScore t < priorityScore y
    · simp only [insertDescStable, if_pos hc]
      by_cases ht : priorityScore t = n
      · have hy : ¬ priorityScore y = n := by omega
        simp only [List.filter, decide_eq_true_eq]
        rw [if_pos ht] at ih ⊢
        simp [hy, ih]
      · simp only [List.filter, decide_eq_true_eq]
        rw [if_neg ht] at ih ⊢
        by_cases hy : priorityScore y = n <;> simp [hy, ih]
    · simp only [insertDescStable, if_neg hc]
      by_cases ht : priorityScore t = n <;>
        by_cases hy : priorityScore y = n <;>
          simp [List.filter, ht, hy]

theorem sortByPriorityDesc_stable (l : List SchedTask) (n : Nat) :
    (sortByPriorityDesc l).filter (fun x => decide (priorityScore x = n)) =
      l.filter (fun x => decide (priorityScore x = n)) := by
  induction l with
  | nil => simp [sortByPriorityDesc]
  | cons x xs ih =>
    show (insertDescStable x (sortByPriorityDesc xs)).filter _ = _
    rw [insertDescStable_filter]
    by_cases h : priorityScore x = n <;> simp [List.filter, h, ih]

/-! ### Properties of the selection loop -/

theorem selectLoop_zero_length (isLocked : String → Bool) :
    ∀ (rest sel : List SchedTask) (locked : List String),
      (selectLoop isLocked 0 rest sel locked).length ≤ sel.length + 1 := by
  intro rest
  induction rest with
  | nil => intro sel locked; simp [selectLoop]
  | cons t rest ih =>
    intro sel locked
    by_cases hc : anyConflict isLocked locked (extractTaskFiles t)
    · simpa [selectLoop, hc] using ih sel locked
    · simp [selectLoop, hc]

theorem selectLoop_length (isLocked : String → Bool) (k : Nat) :
    ∀ (rest sel : List SchedTask) (locked : List String),
      sel.length < k → (selectLoop isLocked k rest sel locked).length ≤ k := by
  intro rest
  induction rest with
  | nil => intro sel locked h; simpa [selectLoop] using Nat.le_of_lt h
  | cons t rest ih =>
    intro sel locked h
    by_cases hc : anyConflict isLocked locked (extractTaskFiles t)
    · simpa [selectLoop, hc] using ih sel locked h
    · simp only [selectLoop, if_neg hc]
      by_cases hlen : k ≤ (sel ++ [t]).length
      · rw [if_pos hlen]
        simp only [List.length_append, List.length_singleton]
        omega
      · rw [if_neg hlen]
        refine ih (sel ++ [t]) (locked ++ extractTaskFiles t) ?_
        simp only [List.length_append, List.length_singleton] at hlen ⊢
        omega

theorem selectLoop_append_sublist (isLocked : String → Bool) (k : Nat) :
    ∀ (rest sel : List SchedTask) (locked : List String),
      ∃ sub, selectLoop isLocked k rest sel locked = sel ++ sub ∧ sub.Sublist rest := by
  intro rest
  induction rest with
  | nil => intro sel locked; exact ⟨[], by simp [selectLoop]⟩
  | cons t rest ih =>
    intro sel locked
    by_cases hc : anyConflict isLocked locked (extractTaskFiles t)
    · rcases ih sel locked with ⟨sub, he, hs⟩
      exact ⟨sub, by simpa [selectLoop, hc] using he, hs.cons t⟩
    · simp only [selectLoop, if_neg hc]
      by_cases hlen : k ≤ (sel ++ [t]).length
      · refine ⟨[t], ?_, by simp⟩
        rw [if_pos hlen]
      · rcases ih (sel ++ [t]) (locked ++ extractTaskFiles t) with ⟨sub, he, hs⟩
        refine ⟨t :: sub, ?_, hs.cons₂ t⟩
        rw [if_neg hlen, he]
        simp

theorem selectLoop_safety (isLocked : String → Bool) (k : Nat) :
    ∀ (rest sel : List SchedTask) (locked : List String),
      (∀ u ∈ sel, ∀ f ∈ extractTaskFiles u, f ∈ locked) →
      List.Pairwise (fun a b => ∀ f ∈ extractTaskFiles a, f ∉ extractTaskFiles b) sel →
      (∀ u ∈ sel, ∀ f ∈ extractTaskFiles u, isLocked f = false) →
      (List.Pairwise (fun a b => ∀ f ∈ extractTaskFiles a, f ∉ extractTaskFiles b)
        (selectLoop isLocked k rest sel locked) ∧
       ∀ u ∈ selectLoop isLocked k rest sel locked,
         ∀ f ∈ extractTaskFiles u, isLocked f = false) := by
  intro rest
  induction rest with
  | nil =>
    intro sel locked _ h2 h3
    exact ⟨by simpa [selectLoop] using h2, by simpa [selectLoop] using h3⟩
  | cons t rest ih =>
    intro sel locked h1 h2 h3
    by_cases hc : anyConflict isLocked locked (extractTaskFiles t)
    · simpa [selectLoop, hc] using ih sel locked h1 h2 h3
    · have hfree : ∀ f ∈ extractTaskFiles t, f ∉ locked ∧ isLocked f = false := by
        intro f hf
        have hone : (decide (f ∈ locked) || isLocked f) = false := by
          cases hb : (decide (f ∈ locked) || isLocked f) with
          | false => rfl
          | true =>
            exact absurd
              (show anyConflict isLocked locked (extractTaskFiles t) = true from
                List.any_eq_true.2 ⟨f, hf, hb⟩) hc
        rcases Bool.or_eq_false_iff.1 hone with ⟨hl1, hl2⟩
        exact ⟨of_decide_eq_false hl1, hl2⟩
      have h1' : ∀ u ∈ sel ++ [t], ∀ f ∈ extractTaskFiles u,
          f ∈ locked ++ extractTaskFiles t := by
        intro u hu f hf
        rcases List.mem_append.1 hu with hu | hu
        · exact List.mem_append.2 (Or.inl (h1 u hu f hf))
        · simp only [List.mem_singleton] at hu
          subst hu
          exact List.mem_append.2 (Or.inr hf)
      have h2' : List.Pairwise (fun a b => ∀ f ∈ extractTaskFiles a, f ∉ extractTaskFiles b)
          (sel ++ [t]) := by
        rw [List.pairwise_append]
        refine ⟨h2, by simp, ?_⟩
        intro a ha b hb
        simp only [List.mem_singleton] at hb
        subst hb
        intro f hf hft
        exact (hfree f hft).1 (h1 a ha f hf)
      have h3' : ∀ u ∈ sel ++ [t], ∀ f ∈ extractTaskFiles u, isLocked f = false := by
        intro u hu f hf
        rcases List.mem_append.1 hu with hu | hu
        · exact h3 u hu f hf
        · simp only [List.mem_singleton] at hu
          subst hu
          exact (hfree f hf).2
      simp only [selectLoop, if_neg hc]
      by_cases hlen : k ≤ (sel ++ [t]).length
      · simp only [if_pos hlen]
        exact ⟨h2', h3'⟩
      · simp only [if_neg hlen]
        exact ih (sel ++ [t]) (locked ++ extractTaskFiles t) h1' h2' h3'

/-! ### Candidate facts -/

theorem status_of_mem_getPendingTasks (st : SchedStore) (t : SchedTask)
    (h : t ∈ getPendingTasks st) : t.status = TStatus.pending := by
  rcases List.mem_filterMap.1 h with ⟨e, _, he⟩
  cases hid : getTaskById st e.id with
  | none => rw [hid] at he; simp at he
  | some u =>
    rw [hid] at he
    by_cases hu : u.status = TStatus.pending
    · simp only [if_pos hu, Option.some_inj] at he
      subst he
      exact hu
    · simp [hu] at he

theorem deps_of_mem_filterReadyTasks (st : SchedStore) (l : List SchedTask) (t : SchedTask)
    (h : t ∈ filterReadyTasks st l) :
    t ∈ l ∧ ∀ dep ∈ t.dependencies,
      ∃ d, getTaskById st dep = some d ∧ d.status = TStatus.completed := by
  rcases List.mem_filter.1 h with ⟨hmem, hall⟩
  refine ⟨hmem, ?_⟩
  intro dep hdep
  have hd := List.all_eq_true.1 hall dep hdep
  unfold depCompleted at hd
  cases hid : getTaskById st dep with
  | none => rw [hid] at hd; simp at hd
  | some d =>
    rw [hid] at hd
    simp only [decide_eq_true_eq] at hd
    exact ⟨d, rfl, hd⟩

def c1ReadyTasks (st : SchedStore) : List SchedTask :=
  filterReadyTasks st (getPendingTasks st)

theorem getParallelizableTasks_cases (st : SchedStore) (isLocked : String → Bool) (k : Nat) :
    getParallelizableTasks st isLocked k = [] ∨
    getParallelizableTasks st isLocked k =
      selectLoop isLocked k (sortByPriorityDesc (c1ReadyTasks st)) [] [] := by
  unfold getParallelizableTasks c1ReadyTasks
  by_cases h : (getPendingTasks st).isEmpty <;> simp [h]

/-- Claim C1, counterexample: with max_workers = 0 the selection loop
appends a candidate before testing the length bound, so the batch
holds one task, more than max_workers. -/
theorem C1_counterexample :
    (getParallelizableTasks
      { index := [⟨"task_001", "t", TPriority.medium, "T0"⟩],
        files := [("task_001",
          { id := "task_001", title := "t", description := "",
            priority := TPriority.medium, status := TStatus.pending,
            files := [], dependencies := [] })] }
      (fun _ => false) 0).length = 1 ∧ ¬ ((1 : Nat) ≤ 0) := by
  exact ⟨rfl, by decide⟩

/-- Claim C1 as amended: every batch returned by
get_parallelizable_tasks holds at most max(k, 1) tasks (at most k for
every k at least 1; with k = 0 one task can still be selected, since
the length test runs only after an append); every selected task is
pending with every dependency resolving to a completed task; the
extracted file sets (files field plus the three description patterns,
normalized and deduplicated) of the selected tasks are pairwise
disjoint and contain no file the lock manager currently reports
locked; and the batch is chosen in order from the stable descending
priority sort of the ready candidates (a permutation of the ready
list, non-increasing in score with high 3, medium 2, low 1, preserving
the index creation order among equal scores). -/
theorem C1_scheduler_batch_safety (st : SchedStore) (isLocked : String → Bool) (k : Nat) :
    (getParallelizableTasks st isLocked k).length ≤ max k 1 ∧
    (∀ t ∈ getParallelizableTasks st isLocked k, t.status = TStatus.pending) ∧
    (∀ t ∈ getParallelizableTasks st isLocked k, ∀ dep ∈ t.dependencies,
      ∃ d, getTaskById st dep = some d ∧ d.status = TStatus.completed) ∧
    List.Pairwise (fun a b => ∀ f ∈ extractTaskFiles a, f ∉ extractTaskFiles b)
      (getParallelizableTasks st isLocked k) ∧
    (∀ t ∈ getParallelizableTasks st isLocked k, ∀ f ∈ extractTaskFiles t,
      isLocked f = false) ∧
    (getParallelizableTasks st isLocked k).Sublist
      (sortByPriorityDesc (c1ReadyTasks st)) ∧
    (sortByPriorityDesc (c1ReadyTasks st)).Perm (c1ReadyTasks st) ∧
    List.Pairwise (fun a b => priorityScore b ≤ priorityScore a)
      (sortByPriorityDesc (c1ReadyTasks st)) ∧
    (∀ n : Nat, (sortByPriorityDesc (c1ReadyTasks st)).filter
        (fun x => decide (priorityScore x = n)) =
      (c1ReadyTasks st).filter (fun x => decide (priorityScore x = n))) := by
  have hperm := sortByPriorityDesc_perm (c1ReadyTasks st)
  have hmem_ready : ∀ t ∈ getParallelizableTasks st isLocked k, t ∈ c1ReadyTasks st := by
    rcases getParallelizableTasks_cases st isLocked k with hcase | hcase
    · rw [hcase]; intro t ht; simp at ht
    · rw [hcase]
      intro t ht
      rcases selectLoop_append_sublist isLocked k
        (sortByPriorityDesc (c1ReadyTasks st)) [] [] with ⟨sub, he, hs⟩
      rw [he] at ht
      simp only [List.nil_append] at ht
      exact hperm.mem_iff.1 (hs.subset ht)
  have hsafety : List.Pairwise (fun a b => ∀ f ∈ extractTaskFiles a, f ∉ extractTaskFiles b)
      (getParallelizableTasks st isLocked k) ∧
      ∀ t ∈ getParallelizableTasks st isLocked k, ∀ f ∈ extractTaskFiles t,
        isLocked f = false := by
    rcases getParallelizableTasks_cases st isLocked k with hcase | hcase
    · rw [hcase]; exact ⟨by simp, by simp⟩
    · rw [hcase]
      exact selectLoop_safety isLocked k _ [] [] (by simp) (by simp) (by simp)
  refine ⟨?_, ?_, ?_, hsafety.1, hsafety.2, ?_, hperm, sortByPriorityDesc_pairwise _,
    fun n => sortByPriorityDesc_stable _ n⟩
  · rcases getParallelizableTasks_cases st isLocked k with hcase | hcase
    · rw [hcase]; simp
    · rw [hcase]
      by_cases hk : 1 ≤ k
      · have := selectLoop_length isLocked k
          (sortByPriorityDesc (c1ReadyTasks st)) [] [] (by simpa using hk)
        omega
      · have hk0 : k = 0 := by omega
        subst hk0
        have := selectLoop_zero_length isLocked
          (sortByPriorityDesc (c1ReadyTasks st)) [] []
        simp only [List.length_nil] at this
        omega
  · intro t ht
    exact status_of_mem_getPendingTasks st t
      (deps_of_mem_filterReadyTasks st _ t (hmem_ready t ht)).1
  · intro t ht
    exact (deps_of_mem_filterReadyTasks st _ t (hmem_ready t ht)).2
  · rcases getParallelizableTasks_cases st isLocked k with hcase | hcase
    · rw [hcase]; exact List.nil_sublist _
    · rw [hcase]
      rcases selectLoop_append_sublist isLocked k
        (sortByPriorityDesc (c1ReadyTasks st)) [] [] with ⟨sub, he, hs⟩
      rw [he]
      simpa using hs

end Orchestragent
